import Mathlib

/-!
Verification of the orchestration core of the Synthetic-Verdict dataset
generator: the credential/model rotation pool (`llm_manager.py`), the
retry/error-classification wrapper and stage engine (`pipeline.py`), and the
lawyer-side generation adapters (`lawyer.py`).  The generation collaborator
(`chain.invoke`) is modelled as an oracle `Gen : GenCall → Except String
String`: `.error msg` stands for a raised exception whose `str` is `msg`.
-/

namespace SynthVerdict

/-- ASCII lowering of a string, modelling Python `str.lower()` on the ASCII
text this program matches against. -/
def strLower (s : String) : String := String.mk (s.data.map Char.toLower)

/-- `listSub hay nee = true` iff `nee` occurs as a contiguous sublist of
`hay`; models Python `nee in hay` on strings (via the char lists). -/
def listSub (hay nee : List Char) : Bool :=
  match hay with
  | [] => nee.isEmpty
  | _ :: t => nee.isPrefixOf hay || listSub t nee

/-- Python `nee in hay` substring test. -/
def strContainsSub (hay nee : String) : Bool := listSub hay.data nee.data

/-- One-line join, Python `"\n".join(xs)`. -/
def joinNL (xs : List String) : String := String.intercalate "\n" xs

/-- Suffix of `l` just after the first occurrence of `close`, if any;
helper for the `<think>` stripping regex. -/
def dropToClose (close : List Char) : List Char → Option (List Char)
  | [] => none
  | c :: t =>
    if close.isPrefixOf (c :: t) then some ((c :: t).drop close.length)
    else dropToClose close t

/-- Fueled scan for `re.sub(r"<think>.*?</think>", "", s, flags=re.DOTALL)`:
each leftmost `<think>` paired non-greedily with the nearest following
`</think>` is removed. -/
def removeThinkAux : Nat → List Char → List Char
  | 0, l => l
  | _ + 1, [] => []
  | fuel + 1, c :: t =>
    if "<think>".data.isPrefixOf (c :: t) then
      match dropToClose "</think>".data ((c :: t).drop 7) with
      | some rest => removeThinkAux fuel rest
      | none => c :: removeThinkAux fuel t
    else c :: removeThinkAux fuel t

/-- Python `str.strip()`: drop whitespace from both ends (computed on the
char list so that it evaluates inside the kernel). -/
def pyStrip (s : String) : String :=
  String.mk (((s.data.dropWhile Char.isWhitespace).reverse.dropWhile
    Char.isWhitespace).reverse)

/-- `re.sub(r"<think>.*?</think>", "", response, flags=re.DOTALL).strip()`
applied by every lawyer adapter to the raw model response. -/
def postprocess (s : String) : String :=
  pyStrip (String.mk (removeThinkAux (s.data.length + 1) s.data))

/-- One invocation of the generation collaborator, carrying exactly the
inputs `chain.invoke` receives in `lawyer.py` (the prompt variables). -/
inductive GenCall
  | opening (aiRole caseDetails userRole : String)
  | counter (history lastArgument aiRole userRole caseDetails : String)
  | closing (history aiRole userRole : String)
deriving DecidableEq, Repr

/-- The generation collaborator: returns text or raises (error message). -/
def Gen : Type := GenCall → Except String String

/-- Fallback text returned by `generate_counter_argument` on any exception. -/
def counterFallback : String :=
  "I apologize, but I'm unable to generate a counter argument at this time. Please try again later."

/-- Fallback text returned by `opening_statement` on any exception. -/
def openingFallback : String :=
  "I apologize, but I'm unable to generate an opening statement at this time. Please try again later."

/-- `lawyer.generate_counter_argument`: invokes the chain and post-processes;
any exception is caught and mapped to the apology fallback string. -/
def generate_counter_argument (gen : Gen) (history lastArgument aiRole userRole caseDetails : String) :
    String :=
  match gen (.counter history lastArgument aiRole userRole caseDetails) with
  | .ok r => postprocess r
  | .error _ => counterFallback

/-- `lawyer.opening_statement`: invokes the chain and post-processes; any
exception is caught and mapped to the apology fallback string. -/
def opening_statement (gen : Gen) (aiRole caseDetails userRole : String) : String :=
  match gen (.opening aiRole caseDetails userRole) with
  | .ok r => postprocess r
  | .error _ => openingFallback

/-- History truncation in `closing_statement`: over 15000 chars, keep
`parts[0]` plus the last 5 `"\n\n"`-separated blocks. -/
def truncateHistory (history : String) : String :=
  if 15000 < history.length then
    let parts := history.splitOn "\n\n"
    if 6 < parts.length then
      parts.headD "" ++ "\n\n" ++ String.intercalate "\n\n" (parts.drop (parts.length - 5))
    else history
  else history

/-- `lawyer.closing_statement`: truncates history, invokes the chain; a raised
exception or a too-short/apologetic response is re-raised to the caller
(`Except.error`), never converted to a fallback string. -/
def closing_statement (gen : Gen) (history aiRole userRole : String) : Except String String :=
  let h := truncateHistory history
  match gen (.closing h aiRole userRole) with
  | .error e => .error e
  | .ok r =>
    let resp := postprocess r
    if resp = "" || resp.length < 50 || strContainsSub (strLower resp) "apologize" then
      .error "Invalid closing statement response"
    else .ok resp

/-- The fallback phrases `pipeline.is_valid_response` rejects. -/
def fallbackPatterns : List String :=
  ["i apologize", "unable to", "please try again later", "failed after multiple retries"]

/-- `pipeline.is_valid_response`: empty text or text containing any fallback
phrase (case-insensitively) is invalid. -/
def is_valid_response (text : String) : Bool :=
  if text = "" then false
  else ! fallbackPatterns.any (fun p => strContainsSub (strLower text) p)

/-- The engine acceptance test `resp and is_valid_response(resp)`. -/
def acceptedResp (resp : String) : Bool := (resp != "") && is_valid_response resp

/-- One `save_progress` call: the argument lists and status written to the
document store for the case being processed. -/
structure SaveEv where
  plaintiff : List String
  defendant : List String
  status : String
deriving DecidableEq, Repr

/-- A persisted case document (the fields the orchestration core reads). -/
structure CaseDoc where
  id : Nat
  title : String
  details : String
  plaintiff_arguments : List String
  defendant_arguments : List String
  status : String
  cnr : String := ""
  sectionCode : Nat := 0
deriving DecidableEq, Repr

/-- Result of the counter-argument rounds loop of
`generate_arguments_for_case`. -/
structure RoundsOut where
  trace : List GenCall
  saves : List SaveEv
  plaintiff : List String
  defendant : List String
  history : List String
  ok : Bool
deriving DecidableEq, Repr

/-- The plaintiff-side prompt `f"Plaintiff, present your round {n} argument"`. -/
def pInstr (n : Nat) : String :=
  "Plaintiff, present your round " ++ toString n ++ " argument"

/-- The `while len(plaintiff_args) < 3` loop of
`generate_arguments_for_case`: each iteration generates a plaintiff argument
(prompted by the round instruction) then a defendant counter (prompted by
that plaintiff argument), appending accepted outputs to the lists and the
running history, checkpointing after each acceptance, and signalling retry
(`ok = false`) on the first rejected output.  `fuel` bounds the iteration
count; the loop itself stops when the plaintiff list reaches length 3. -/
def runRounds (gen : Gen) (details : String) :
    Nat → List String → List String → List String → RoundsOut
  | 0, p, d, hist => ⟨[], [], p, d, hist, true⟩
  | fuel + 1, p, d, hist =>
    if p.length < 3 then
      let roundNum := p.length
      let callP : GenCall := .counter (joinNL hist) (pInstr roundNum) "Plaintiff" "Defendant" details
      let argP := generate_counter_argument gen (joinNL hist) (pInstr roundNum) "Plaintiff" "Defendant" details
      if acceptedResp argP then
        let p' := p ++ [argP]
        let hist' := hist ++ [argP]
        let save1 : SaveEv := ⟨p', d, "in-progress"⟩
        let callD : GenCall := .counter (joinNL hist') argP "Defendant" "Plaintiff" details
        let argD := generate_counter_argument gen (joinNL hist') argP "Defendant" "Plaintiff" details
        if acceptedResp argD then
          let d' := d ++ [argD]
          let hist'' := hist' ++ [argD]
          let save2 : SaveEv := ⟨p', d', "in-progress"⟩
          let rest := runRounds gen details fuel p' d' hist''
          ⟨callP :: callD :: rest.trace, save1 :: save2 :: rest.saves,
            rest.plaintiff, rest.defendant, rest.history, rest.ok⟩
        else ⟨[callP, callD], [save1], p', d, hist', false⟩
      else ⟨[callP], [], p, d, hist, false⟩
    else ⟨[], [], p, d, hist, true⟩

instance {ε α : Type} [DecidableEq ε] [DecidableEq α] : DecidableEq (Except ε α) := fun a b =>
  match a, b with
  | .ok x, .ok y => if h : x = y then .isTrue (by rw [h]) else .isFalse (by simp [h])
  | .error x, .error y => if h : x = y then .isTrue (by rw [h]) else .isFalse (by simp [h])
  | .ok _, .error _ => .isFalse (by simp)
  | .error _, .ok _ => .isFalse (by simp)

/-- Result of one (undecorated) run of `generate_arguments_for_case`:
the generation calls made, the checkpoints written, the final in-memory
argument lists, and the outcome — `.ok b` for a normal return `b`,
`.error e` for a propagated exception. -/
structure EngineOut where
  trace : List GenCall
  saves : List SaveEv
  plaintiff : List String
  defendant : List String
  result : Except String Bool
deriving DecidableEq, Repr

/-- Outcome of one guarded stage block (`if <stage not satisfied>: ...`). -/
inductive StageRes
  | skipped
  | accepted (resp : String)
  | rejected
  | raised (e : String)
deriving DecidableEq, Repr

/-- One opening-statement block of `generate_arguments_for_case`:
runs only when the side's list is empty; an accepted response is reported,
an invalid one signals retry.  Returns the generation calls made. -/
def runOpeningStep (gen : Gen) (aiRole details userRole : String) (args : List String) :
    List GenCall × StageRes :=
  if args.length = 0 then
    let resp := opening_statement gen aiRole details userRole
    if acceptedResp resp then ([.opening aiRole details userRole], .accepted resp)
    else ([.opening aiRole details userRole], .rejected)
  else ([], .skipped)

/-- One closing-statement block of `generate_arguments_for_case`:
runs only when the side's list has fewer than 4 entries; an exception from
`closing_statement` is re-raised, an invalid response signals retry. -/
def runClosingStep (gen : Gen) (aiRole userRole : String) (args hist : List String) :
    List GenCall × StageRes :=
  if args.length < 4 then
    let call : GenCall := .closing (truncateHistory (joinNL hist)) aiRole userRole
    match closing_statement gen (joinNL hist) aiRole userRole with
    | .error e => ([call], .raised e)
    | .ok resp =>
      if acceptedResp resp then ([call], .accepted resp) else ([call], .rejected)
  else ([], .skipped)

/-- Steps 3–4 of `generate_arguments_for_case` (the two closing blocks and
the final resolved check), continuing from the state `(tr2, sv2, p2, d2,
hist2)` left by the rounds loop. -/
def engineClosings (gen : Gen) (details : String) (tr2 : List GenCall) (sv2 : List SaveEv)
    (p2 d2 hist2 : List String) : EngineOut :=
  let cP := runClosingStep gen "Plaintiff" "Defendant" p2 hist2
  match cP.2 with
  | .rejected => ⟨tr2 ++ cP.1, sv2, p2, d2, .ok false⟩
  | .raised e => ⟨tr2 ++ cP.1, sv2, p2, d2, .error e⟩
  | resCP =>
    let p3 := match resCP with | .accepted s => p2 ++ [s] | _ => p2
    let hist3 := match resCP with | .accepted s => hist2 ++ [s] | _ => hist2
    let sv3 := match resCP with
      | .accepted _ => sv2 ++ [⟨p3, d2, "in-progress"⟩] | _ => sv2
    let cD := runClosingStep gen "Defendant" "Plaintiff" d2 hist3
    match cD.2 with
    | .rejected => ⟨tr2 ++ cP.1 ++ cD.1, sv3, p3, d2, .ok false⟩
    | .raised e => ⟨tr2 ++ cP.1 ++ cD.1, sv3, p3, d2, .error e⟩
    | resCD =>
      let d3 := match resCD with | .accepted s => d2 ++ [s] | _ => d2
      let sv4 := match resCD with
        | .accepted _ => sv3 ++ [⟨p3, d3, "in-progress"⟩] | _ => sv3
      -- Step 4: mark resolved only if both sides have exactly 4 entries
      if p3.length = 4 ∧ d3.length = 4 then
        ⟨tr2 ++ cP.1 ++ cD.1, sv4 ++ [⟨p3, d3, "resolved"⟩], p3, d3, .ok true⟩
      else ⟨tr2 ++ cP.1 ++ cD.1, sv4, p3, d3, .ok false⟩

/-- Step 2 of `generate_arguments_for_case` (the counter-argument rounds)
followed by the closings, continuing from the state after the openings. -/
def engineAfterOpenings (gen : Gen) (details : String) (tr1 : List GenCall)
    (sv1 : List SaveEv) (p1 d1 : List String) : EngineOut :=
  let hist1 := p1 ++ d1
  let r := runRounds gen details 3 p1 d1 hist1
  let tr2 := tr1 ++ r.trace
  let sv2 := sv1 ++ r.saves
  if r.ok = false then ⟨tr2, sv2, r.plaintiff, r.defendant, .ok false⟩
  else engineClosings gen details tr2 sv2 r.plaintiff r.defendant r.history

/-- `pipeline.generate_arguments_for_case` (body, without the retry
decorator): resumes a case through opening statements, two counter-argument
rounds and closing statements, skipping stages already satisfied, saving
after each accepted stage, and marking the case resolved only when both
sides hold exactly 4 statements. -/
def generate_arguments_for_case (gen : Gen) (c : CaseDoc) : EngineOut :=
  let details := c.details
  let p0 := c.plaintiff_arguments
  let d0 := c.defendant_arguments
  -- Step 1: opening statements (each side only when its list is empty)
  let oP := runOpeningStep gen "Plaintiff" details "Defendant" p0
  match oP.2 with
  | .rejected => ⟨oP.1, [], p0, d0, .ok false⟩
  | .raised e => ⟨oP.1, [], p0, d0, .error e⟩
  | resP =>
    let p1 := match resP with | .accepted r => p0 ++ [r] | _ => p0
    let svP : List SaveEv := match resP with
      | .accepted _ => [⟨p1, d0, "in-progress"⟩] | _ => []
    let oD := runOpeningStep gen "Defendant" details "Plaintiff" d0
    match oD.2 with
    | .rejected => ⟨oP.1 ++ oD.1, svP, p1, d0, .ok false⟩
    | .raised e => ⟨oP.1 ++ oD.1, svP, p1, d0, .error e⟩
    | resD =>
      let d1 := match resD with | .accepted r => d0 ++ [r] | _ => d0
      let svD : List SaveEv := match resD with
        | .accepted _ => svP ++ [⟨p1, d1, "in-progress"⟩] | _ => svP
      engineAfterOpenings gen details (oP.1 ++ oD.1) svD p1 d1

/-! ## Credential pool (`llm_manager.py`)

The module-level mutable rotation state, parameterised by the `.env`
configuration `allKeys = groq_api_keys` and `allModels = groq_models`.
The print/statistics bookkeeping (`model_key_usage`, `keys_remaining`,
`models_remaining` mirrors) is reporting-only and not modelled beyond the
rotation counter. -/

/-- The rotation state: globals of `llm_manager.py`.  `modelKeys` is the
`rotate_key.model_keys` function attribute (`none` while the attribute has
not been created yet). -/
structure PoolState where
  availableKeys : List String
  availableModels : List String
  currentKey : String
  currentModel : String
  rotationCount : Nat
  modelKeys : Option (List (String × List String))
deriving DecidableEq, Repr

/-- Python dict write `mk[m] = ks`, modelled on a lookup-equivalent
assoc-list representation of the dict. -/
def updEntry (mk : List (String × List String)) (m : String) (ks : List String) :
    List (String × List String) :=
  (m, ks) :: mk.filter (fun e => e.1 ≠ m)

/-- Module-load initial state: all keys and models available, current pair
is the first of each cycle, no `model_keys` attribute yet. -/
def initPool (allKeys allModels : List String) : PoolState :=
  { availableKeys := allKeys
    availableModels := allModels
    currentKey := allKeys.headD ""
    currentModel := allModels.headD ""
    rotationCount := 0
    modelKeys := none }

/-- `llm_manager.reset_rotation_counters`: restores all keys and models and
deletes the per-model tracking attribute. -/
def reset_rotation_counters (allKeys allModels : List String) : PoolState :=
  initPool allKeys allModels

/-- `llm_manager.rotate_model`: removes the current model from the usable
set; when none remains raises `RuntimeError` (pool exhausted); otherwise the
new current model is the first remaining one, reusing its previously tracked
key subset when it was visited before and a fresh full key set otherwise. -/
def rotate_model (allKeys : List String) (st : PoolState) : Except String PoolState :=
  let rc := st.rotationCount + 1
  let avail := st.availableModels.filter (fun m => m ≠ st.currentModel)
  if avail.isEmpty then .error "All groq_models exhausted"
  else
    let cur := avail.headD ""
    match st.modelKeys with
    | some mk =>
      match mk.lookup cur with
      | some keys =>
        .ok { availableKeys := keys, availableModels := avail,
              currentKey := keys.headD "", currentModel := cur,
              rotationCount := rc, modelKeys := some mk }
      | none =>
        .ok { availableKeys := allKeys, availableModels := avail,
              currentKey := allKeys.headD "", currentModel := cur,
              rotationCount := rc, modelKeys := some (updEntry mk cur allKeys) }
    | none =>
      .ok { availableKeys := allKeys, availableModels := avail,
            currentKey := allKeys.headD "", currentModel := cur,
            rotationCount := rc, modelKeys := none }

/-- `llm_manager.rotate_key`: removes the current key from the *current
model's* tracked key subset (creating the per-model tracking on first use);
when keys remain the next one becomes current, otherwise it delegates to
`rotate_model`. -/
def rotate_key (allKeys : List String) (st : PoolState) : Except String PoolState :=
  let rc := st.rotationCount + 1
  let mk0 := st.modelKeys.getD []
  let mk1 := if (mk0.lookup st.currentModel).isSome then mk0
             else updEntry mk0 st.currentModel allKeys
  let keys1 := ((mk1.lookup st.currentModel).getD []).filter (fun k => k ≠ st.currentKey)
  let mk2 := updEntry mk1 st.currentModel keys1
  if keys1.isEmpty then
    rotate_model allKeys
      { st with availableKeys := keys1, rotationCount := rc, modelKeys := some mk2 }
  else
    .ok { st with
            availableKeys := keys1, currentKey := keys1.headD "",
            rotationCount := rc, modelKeys := some mk2 }

/-- A rotation operation on the pool. -/
inductive PoolOp
  | key
  | model
deriving DecidableEq, Repr

/-- One rotation operation. -/
def poolStep (allKeys : List String) : PoolOp → PoolState → Except String PoolState
  | .key => rotate_key allKeys
  | .model => rotate_model allKeys

/-- A sequence of rotation operations (no intervening `reset`). -/
def runOps (allKeys : List String) : List PoolOp → PoolState → Except String PoolState
  | [], st => .ok st
  | op :: ops, st =>
    match poolStep allKeys op st with
    | .error e => .error e
    | .ok st' => runOps allKeys ops st'

/-- The usable-key subset the pool currently tracks for model `m`: the
per-model tracked list when one exists, the full key set otherwise. -/
def usableKeys (allKeys : List String) (st : PoolState) (m : String) : List String :=
  match st.modelKeys with
  | some mk => (mk.lookup m).getD allKeys
  | none => allKeys

/-! ## Retry wrapper (`pipeline.retry_with_backoff`) -/

/-- A Python exception as the orchestration core distinguishes them:
`SystemExit` (not a subclass of `Exception`, so never caught by
`except Exception`) versus any `Exception` with its message. -/
inductive PyExc
  | sysExit
  | err (msg : String)
deriving DecidableEq, Repr

/-- Error classes of the retry wrapper's string matching. -/
inductive ErrClass
  | dailyQuota
  | shortTermRateLimit
  | transientCapacity
  | unknown
deriving DecidableEq, Repr

/-- The wrapper's error classification.  `jsonCode msg` stands for
`json.loads(str(e).split("Error code:")[-1].strip()).get("error", {}).get("code")`
(`none` when the parse fails or the field is missing); the JSON parse of the
opaque upstream message is abstracted as this oracle. -/
def classifyError (jsonCode : String → Option String) (msg : String) : ErrClass :=
  let s := strLower msg
  if strContainsSub s "rate limit" then
    if strContainsSub s "tokens per day" || jsonCode msg == some "rate_limit_exceeded" then
      .dailyQuota
    else .shortTermRateLimit
  else if strContainsSub s "503" || strContainsSub s "over capacity" then .transientCapacity
  else .unknown

/-- Observable recovery actions of the retry wrapper. -/
inductive RAction
  | sleep (secs : Nat)
  | rotKey
  | rotModel
deriving DecidableEq, Repr

/-- Result of a wrapped call: actions performed, final pool, final threaded
external state (e.g. the document store), and the returned value or the
propagated exception. -/
structure RetryOut (σ α : Type) where
  acts : List RAction
  pool : PoolState
  state : σ
  result : Except PyExc α

/-- The loop of `retry_with_backoff` (`max_retries, delay = 5, 2`): `fuel`
counts the remaining iterations of `for attempt in range(5)` and `attempt`
the current index.  A `rate limit` failure rotates (model on daily-quota,
key otherwise) and always continues — so a final-attempt rate-limit failure
falls out of the loop into `raise Exception("Maximum retries exceeded")`;
a 503/over-capacity failure backs off with doubling delay and from attempt
index 2 also rotates the key; any other failure rotates the key except on
the last attempt; the last attempt re-raises the last error; a failed
rotation raises `RuntimeError` out of the wrapper; `SystemExit` is never
caught. -/
def retryLoop {σ α : Type} (allKeys : List String) (jsonCode : String → Option String)
    (body : Nat → PoolState → σ → Except PyExc α × PoolState × σ) :
    Nat → Nat → Nat → PoolState → σ → List RAction → RetryOut σ α
  | 0, _, _, pool, s, acts => ⟨acts, pool, s, .error (.err "Maximum retries exceeded")⟩
  | fuel + 1, attempt, delay, pool, s, acts =>
    match body attempt pool s with
    | (.ok a, pool', s') => ⟨acts, pool', s', .ok a⟩
    | (.error .sysExit, pool', s') => ⟨acts, pool', s', .error .sysExit⟩
    | (.error (.err msg), pool', s') =>
      match classifyError jsonCode msg with
      | .dailyQuota =>
        match rotate_model allKeys pool' with
        | .error em => ⟨acts ++ [.rotModel], pool', s', .error (.err em)⟩
        | .ok pool'' =>
          retryLoop allKeys jsonCode body fuel (attempt + 1) delay pool'' s'
            (acts ++ [.rotModel, .sleep 20])
      | .shortTermRateLimit =>
        match rotate_key allKeys pool' with
        | .error em => ⟨acts ++ [.rotKey], pool', s', .error (.err em)⟩
        | .ok pool'' =>
          retryLoop allKeys jsonCode body fuel (attempt + 1) delay pool'' s'
            (acts ++ [.rotKey, .sleep 10])
      | .transientCapacity =>
        let acts1 := acts ++ [.sleep delay]
        if 2 ≤ attempt then
          match rotate_key allKeys pool' with
          | .error em => ⟨acts1 ++ [.rotKey], pool', s', .error (.err em)⟩
          | .ok pool'' =>
            if attempt = 4 then ⟨acts1 ++ [.rotKey], pool'', s', .error (.err msg)⟩
            else retryLoop allKeys jsonCode body fuel (attempt + 1) (delay * 2) pool'' s'
              (acts1 ++ [.rotKey])
        else
          if attempt = 4 then ⟨acts1, pool', s', .error (.err msg)⟩
          else retryLoop allKeys jsonCode body fuel (attempt + 1) (delay * 2) pool' s' acts1
      | .unknown =>
        if attempt < 4 then
          match rotate_key allKeys pool' with
          | .error em => ⟨acts ++ [.rotKey], pool', s', .error (.err em)⟩
          | .ok pool'' =>
            retryLoop allKeys jsonCode body fuel (attempt + 1) delay pool'' s'
              (acts ++ [.rotKey, .sleep 5])
        else ⟨acts, pool', s', .error (.err msg)⟩

/-- `pipeline.retry_with_backoff` applied to a wrapped body. -/
def retry_with_backoff {σ α : Type} (allKeys : List String)
    (jsonCode : String → Option String)
    (body : Nat → PoolState → σ → Except PyExc α × PoolState × σ)
    (pool : PoolState) (s : σ) : RetryOut σ α :=
  retryLoop allKeys jsonCode body 5 0 2 pool s []

/-! ## Decorated engine and `run_single_case` (`pipeline.py`) -/

/-- `save_progress` as a document-store update: replace the argument lists
and status of the document with matching id. -/
def applySave (cid : Nat) (db : List CaseDoc) (sv : SaveEv) : List CaseDoc :=
  db.map (fun c =>
    if c.id = cid then
      { c with plaintiff_arguments := sv.plaintiff, defendant_arguments := sv.defendant,
               status := sv.status }
    else c)

/-- Apply a run's checkpoints to the store in order. -/
def applySaves (cid : Nat) (db : List CaseDoc) (svs : List SaveEv) : List CaseDoc :=
  svs.foldl (applySave cid) db

/-- The retry-decorated `generate_arguments_for_case`: each attempt runs the
engine body (with the generation oracle for that attempt and pool) and
writes its checkpoints to the store; an engine exception is classified and
retried by the wrapper, a normal `True`/`False` return exits it. -/
def generate_arguments_with_retry (allKeys : List String)
    (jsonCode : String → Option String) (gen : Nat → PoolState → Gen) (c : CaseDoc)
    (pool : PoolState) (db : List CaseDoc) : RetryOut (List CaseDoc) Bool :=
  retry_with_backoff allKeys jsonCode
    (fun attempt pool db =>
      let out := generate_arguments_for_case (gen attempt pool) c
      (out.result.mapError PyExc.err, pool, applySaves c.id db out.saves))
    pool db

/-- Output of the external case-content generator `generate_case` (spec §6):
`none` models a falsy return. -/
structure CaseContent where
  cnr : String
  title : String
  details : String
deriving DecidableEq, Repr

/-- The body of `pipeline.run_single_case` for one attempt: generate fresh
case content (raising `ValueError` on a falsy result), insert it as a
`details-only` document (`insert_one` — the new id is the store length),
then immediately run the decorated stage engine on it; a `False` outcome
raises `ValueError`.  Nothing ever deletes the inserted document. -/
def run_single_case_body (jsonCode : String → Option String)
    (genCase : Nat → Option CaseContent) (gen : Nat → PoolState → Gen)
    (sec : Nat) (allKeys : List String) (attempt : Nat) (pool : PoolState)
    (db : List CaseDoc) : Except PyExc Bool × PoolState × List CaseDoc :=
  match genCase attempt with
  | none => (.error (.err "Failed to generate case"), pool, db)
  | some cc =>
    let caseData : CaseDoc :=
      { id := db.length, title := cc.title, details := cc.details,
        plaintiff_arguments := [], defendant_arguments := [],
        status := "details-only", cnr := cc.cnr, sectionCode := sec }
    let db' := db ++ [caseData]
    let r := generate_arguments_with_retry allKeys jsonCode (fun k => gen (attempt + k)) caseData pool db'
    match r.result with
    | .ok true => (.ok true, r.pool, r.state)
    | .ok false => (.error (.err "Failed to generate arguments for case"), r.pool, r.state)
    | .error e => (.error e, r.pool, r.state)

/-- The retry-decorated `pipeline.run_single_case`. -/
def run_single_case (allKeys : List String) (jsonCode : String → Option String)
    (genCase : Nat → Option CaseContent) (gen : Nat → PoolState → Gen)
    (sec : Nat) (pool : PoolState) (db : List CaseDoc) :
    RetryOut (List CaseDoc) Bool :=
  retry_with_backoff allKeys jsonCode
    (run_single_case_body jsonCode genCase gen sec allKeys) pool db

/-! ## Section scheduler (`pipeline.run_cases_for_section`)

The two per-case processing loops and the new-case creation loop.  The call
`generate_arguments_for_case(case)` (decorated) is abstracted as an oracle
`proc caseId retries`, and `run_single_case(section)` as `procNew slot
retries`; both may raise.  `resolvedAfter` is the recomputed
`count_documents(status="resolved")` after the resumption loops. -/

/-- One scheduler-level call event. -/
inductive SchedEv
  | attemptCase (id : Nat) (retries : Nat)
  | attemptNew (slot : Nat) (retries : Nat)
deriving DecidableEq, Repr

/-- The `while not success and retries < max_retries_per_case` loop around
one existing case: a `False` return or a caught `Exception` increments
`retries`; `SystemExit` is re-raised; `fuel` is `2 - retries`. -/
def caseLoop (proc : Nat → Nat → Except PyExc Bool) (cid : Nat) :
    Nat → Nat → List SchedEv × Except PyExc Bool
  | 0, _ => ([], .ok false)
  | fuel + 1, retries =>
    match proc cid retries with
    | .ok true => ([.attemptCase cid retries], .ok true)
    | .ok false =>
      let rest := caseLoop proc cid fuel (retries + 1)
      (.attemptCase cid retries :: rest.1, rest.2)
    | .error .sysExit => ([.attemptCase cid retries], .error .sysExit)
    | .error (.err _) =>
      let rest := caseLoop proc cid fuel (retries + 1)
      (.attemptCase cid retries :: rest.1, rest.2)

/-- One `for case in <partition>` loop: a case that stays unsuccessful is
abandoned for this pass; only `SystemExit` aborts the loop. -/
def casesLoop (proc : Nat → Nat → Except PyExc Bool) :
    List Nat → List SchedEv × Except PyExc Unit
  | [] => ([], .ok ())
  | cid :: rest =>
    let r := caseLoop proc cid 2 0
    match r.2 with
    | .error .sysExit => (r.1, .error .sysExit)
    | _ =>
      let rr := casesLoop proc rest
      (r.1 ++ rr.1, rr.2)

/-- The retry loop around one `run_single_case(section)` call (`except
Exception` does not catch `SystemExit`, which propagates). -/
def newCaseAttempt (procNew : Nat → Nat → Except PyExc Unit) (slot : Nat) :
    Nat → Nat → List SchedEv × Except PyExc Bool
  | 0, _ => ([], .ok false)
  | fuel + 1, retries =>
    match procNew slot retries with
    | .ok _ => ([.attemptNew slot retries], .ok true)
    | .error .sysExit => ([.attemptNew slot retries], .error .sysExit)
    | .error (.err _) =>
      let rest := newCaseAttempt procNew slot fuel (retries + 1)
      (.attemptNew slot retries :: rest.1, rest.2)

/-- `for i in range(resolved_count, 3)`: a slot that stays unsuccessful
after its retries breaks out of the creation loop. -/
def newCasesLoop (procNew : Nat → Nat → Except PyExc Unit) :
    List Nat → List SchedEv × Except PyExc Unit
  | [] => ([], .ok ())
  | slot :: rest =>
    let r := newCaseAttempt procNew slot 2 0
    match r.2 with
    | .error e => (r.1, .error e)
    | .ok true =>
      let rr := newCasesLoop procNew rest
      (r.1 ++ rr.1, rr.2)
    | .ok false => (r.1, .ok ())

/-- `pipeline.run_cases_for_section`: partition the section's cases by
status, process every `details-only` case, then every `in-progress` case
(each with at most 2 immediate attempts), then create new cases for slots
`range(resolved_count, 3)` where `resolved_count` is the recomputed
resolved count. -/
def run_cases_for_section (cases : List CaseDoc) (resolvedAfter : Nat)
    (proc : Nat → Nat → Except PyExc Bool) (procNew : Nat → Nat → Except PyExc Unit) :
    List SchedEv × Except PyExc Unit :=
  let detailsOnly := (cases.filter (fun c => c.status = "details-only")).map (fun c => c.id)
  let inProgress := (cases.filter (fun c => c.status = "in-progress")).map (fun c => c.id)
  let r1 := casesLoop proc detailsOnly
  match r1.2 with
  | .error e => (r1.1, .error e)
  | .ok _ =>
    let r2 := casesLoop proc inProgress
    match r2.2 with
    | .error e => (r1.1 ++ r2.1, .error e)
    | .ok _ =>
      if resolvedAfter < 3 then
        let r3 := newCasesLoop procNew ((List.range 3).drop resolvedAfter)
        (r1.1 ++ r2.1 ++ r3.1, r3.2)
      else (r1.1 ++ r2.1, .ok ())

/-! ## Pool rotation lemmas -/

theorem lookup_updEntry_self (mk : List (String × List String)) (m : String) (ks : List String) :
    (updEntry mk m ks).lookup m = some ks := by
  simp [updEntry, List.lookup]

theorem lookup_filter_ne (mk : List (String × List String)) (m m' : String) (h : m' ≠ m) :
    (mk.filter (fun e => e.1 ≠ m)).lookup m' = mk.lookup m' := by
  induction mk with
  | nil => rfl
  | cons e t ih =>
    simp only [ne_eq, decide_not] at ih
    have h3 : (m' == m) = false := by simp [h]
    by_cases he : e.1 = m
    · simp [List.filter_cons, he, List.lookup, h3, ih]
    · by_cases he' : m' = e.1
      · simp [List.filter_cons, he, List.lookup, he']
      · have hne : (m' == e.1) = false := by simp [he']
        simp [List.filter_cons, he, List.lookup, hne, ih]

theorem lookup_updEntry_ne (mk : List (String × List String)) (m m' : String) (ks : List String)
    (h : m' ≠ m) : (updEntry mk m ks).lookup m' = mk.lookup m' := by
  have hflt := lookup_filter_ne mk m m' h
  simp only [ne_eq, decide_not] at hflt
  have hne : (m' == m) = false := by simp [h]
  simp [updEntry, List.lookup, hne, hflt]

theorem headD_mem_of_ne_nil {l : List String} (h : l ≠ []) (a : String) : l.headD a ∈ l := by
  cases l with
  | nil => exact absurd rfl h
  | cons x t => simp [List.headD]

/-- The pool invariant: the current model is still usable, the current key
belongs to the current model's usable-key subset, and every usable model's
tracked key subset is nonempty. -/
structure PoolInv (allKeys : List String) (st : PoolState) : Prop where
  curModelAvail : st.currentModel ∈ st.availableModels
  curKeyUsable : st.currentKey ∈ usableKeys allKeys st st.currentModel
  storedNonempty : ∀ m ∈ st.availableModels, ∀ mk ks,
    st.modelKeys = some mk → mk.lookup m = some ks → ks ≠ []

theorem initPool_inv (allKeys allModels : List String) (hK : allKeys ≠ [])
    (hM : allModels ≠ []) : PoolInv allKeys (initPool allKeys allModels) := by
  refine ⟨headD_mem_of_ne_nil hM "", ?_, ?_⟩
  · dsimp only [initPool, usableKeys]
    exact headD_mem_of_ne_nil hK ""
  · intro m _ mk ks hmk
    simp [initPool] at hmk

theorem rotate_model_ok_inv {allKeys : List String} {st st' : PoolState}
    (hK : allKeys ≠ [])
    (hs : ∀ m ∈ st.availableModels, m ≠ st.currentModel → ∀ mk ks,
      st.modelKeys = some mk → mk.lookup m = some ks → ks ≠ [])
    (h : rotate_model allKeys st = .ok st') :
    PoolInv allKeys st' ∧
      st'.availableModels = st.availableModels.filter (fun m => m ≠ st.currentModel) := by
  have hmemF : ∀ m, m ∈ st.availableModels.filter (fun m => m ≠ st.currentModel) →
      m ∈ st.availableModels ∧ m ≠ st.currentModel := by
    intro m hm
    have := List.mem_filter.mp hm
    exact ⟨this.1, by simpa using this.2⟩
  rw [rotate_model] at h
  set avail := st.availableModels.filter (fun m => m ≠ st.currentModel) with havail
  by_cases hemp : avail.isEmpty
  · rw [if_pos hemp] at h
    exact absurd h (by simp)
  · have hne : avail ≠ [] := by
      intro hn; rw [hn] at hemp; exact hemp rfl
    have hcur : avail.headD "" ∈ avail := headD_mem_of_ne_nil hne ""
    have hcurAvail : avail.headD "" ∈ st.availableModels := (hmemF _ hcur).1
    have hcurNe : avail.headD "" ≠ st.currentModel := (hmemF _ hcur).2
    rw [if_neg hemp] at h
    dsimp only at h
    split at h
    next mk hmk =>
      -- st.modelKeys = some mk
      split at h
      next keys hlk =>
        injection h with h
        subst h
        have hksne : keys ≠ [] := hs _ hcurAvail hcurNe mk keys hmk hlk
        refine ⟨⟨hcur, ?_, ?_⟩, rfl⟩
        · dsimp only [usableKeys]
          rw [hlk]
          exact headD_mem_of_ne_nil hksne ""
        · intro m hm mk' ks' hmk' hlk'
          cases hmk'
          exact hs m (hmemF _ hm).1 (hmemF _ hm).2 mk ks' hmk hlk'
      next hlk =>
        injection h with h
        subst h
        refine ⟨⟨hcur, ?_, ?_⟩, rfl⟩
        · dsimp only [usableKeys]
          rw [lookup_updEntry_self]
          exact headD_mem_of_ne_nil hK ""
        · intro m hm mk' ks' hmk' hlk'
          cases hmk'
          by_cases hmc : m = avail.headD ""
          · subst hmc
            rw [lookup_updEntry_self] at hlk'
            cases hlk'
            exact hK
          · rw [lookup_updEntry_ne mk _ _ _ hmc] at hlk'
            exact hs m (hmemF _ hm).1 (hmemF _ hm).2 mk ks' hmk hlk'
    next hmk =>
      -- st.modelKeys = none
      injection h with h
      subst h
      refine ⟨⟨hcur, ?_, ?_⟩, rfl⟩
      · dsimp only [usableKeys]
        exact headD_mem_of_ne_nil hK ""
      · intro m _ mk ks hc
        cases hc

theorem rotate_key_ok_inv {allKeys : List String} {st st' : PoolState}
    (hK : allKeys ≠ []) (hInv : PoolInv allKeys st)
    (h : rotate_key allKeys st = .ok st') :
    PoolInv allKeys st' ∧ st'.availableModels ⊆ st.availableModels := by
  rw [rotate_key] at h
  set mk0 := st.modelKeys.getD [] with hmk0
  set mk1 := if (mk0.lookup st.currentModel).isSome then mk0
             else updEntry mk0 st.currentModel allKeys with hmk1
  set keys1 := ((mk1.lookup st.currentModel).getD []).filter (fun k => k ≠ st.currentKey)
    with hkeys1
  set mk2 := updEntry mk1 st.currentModel keys1 with hmk2
  have hlkOther : ∀ m, m ≠ st.currentModel → mk2.lookup m = mk0.lookup m := by
    intro m hm
    rw [hmk2, lookup_updEntry_ne _ _ _ _ hm, hmk1]
    by_cases hp : (mk0.lookup st.currentModel).isSome
    · simp [hp]
    · simp [hp, lookup_updEntry_ne _ _ _ _ hm]
  have hmk0Avail : ∀ m ∈ st.availableModels, ∀ ks, mk0.lookup m = some ks → ks ≠ [] := by
    intro m hm ks hlk
    cases hmm : st.modelKeys with
    | none =>
      rw [hmk0, hmm] at hlk
      simp [List.lookup] at hlk
    | some mkOrig =>
      have heq : mk0 = mkOrig := by rw [hmk0, hmm]; rfl
      rw [heq] at hlk
      exact hInv.storedNonempty m hm mkOrig ks hmm hlk
  by_cases hemp : keys1.isEmpty
  · -- no key left for the current model: delegate to rotate_model
    rw [if_pos hemp] at h
    have hs : ∀ m ∈ st.availableModels, m ≠ st.currentModel → ∀ mk ks,
        some mk2 = some mk → mk.lookup m = some ks → ks ≠ [] := by
      intro m hm hmne mk ks hmk hlk
      cases hmk
      rw [hlkOther m hmne] at hlk
      exact hmk0Avail m hm ks hlk
    obtain ⟨hin, heq⟩ := rotate_model_ok_inv hK hs h
    refine ⟨hin, ?_⟩
    rw [heq]
    intro a ha
    exact (List.mem_filter.mp ha).1
  · rw [if_neg hemp] at h
    injection h with h
    subst h
    have hk1ne : keys1 ≠ [] := by
      intro hn
      rw [hn] at hemp
      exact hemp rfl
    refine ⟨⟨hInv.curModelAvail, ?_, ?_⟩, fun a ha => ha⟩
    · dsimp only [usableKeys]
      rw [hmk2, lookup_updEntry_self]
      exact headD_mem_of_ne_nil hk1ne ""
    · intro m hm mk ks hmk hlk
      cases hmk
      by_cases hmc : m = st.currentModel
      · subst hmc
        rw [hmk2, lookup_updEntry_self] at hlk
        cases hlk
        exact hk1ne
      · rw [hlkOther m hmc] at hlk
        exact hmk0Avail m hm ks hlk

theorem poolStep_ok_inv {allKeys : List String} {op : PoolOp} {st st' : PoolState}
    (hK : allKeys ≠ []) (hInv : PoolInv allKeys st) (h : poolStep allKeys op st = .ok st') :
    PoolInv allKeys st' ∧ st'.availableModels ⊆ st.availableModels := by
  cases op with
  | key => exact rotate_key_ok_inv hK hInv h
  | model =>
    have hs : ∀ m ∈ st.availableModels, m ≠ st.currentModel → ∀ mk ks,
        st.modelKeys = some mk → mk.lookup m = some ks → ks ≠ [] := by
      intro m hm _ mk ks hmk hlk
      exact hInv.storedNonempty m hm mk ks hmk hlk
    obtain ⟨hin, heq⟩ := rotate_model_ok_inv hK hs h
    refine ⟨hin, ?_⟩
    rw [heq]
    intro a ha
    exact (List.mem_filter.mp ha).1

theorem runOps_ok_inv {allKeys : List String} (ops : List PoolOp) {st st' : PoolState}
    (hK : allKeys ≠ []) (hInv : PoolInv allKeys st)
    (h : runOps allKeys ops st = .ok st') :
    PoolInv allKeys st' ∧ st'.availableModels ⊆ st.availableModels := by
  induction ops generalizing st with
  | nil =>
    simp only [runOps] at h
    injection h with h
    subst h
    exact ⟨hInv, fun a ha => ha⟩
  | cons op rest ih =>
    simp only [runOps] at h
    split at h
    next e heq => cases h
    next st₁ heq =>
      obtain ⟨hin₁, hsub₁⟩ := poolStep_ok_inv hK hInv heq
      obtain ⟨hin₂, hsub₂⟩ := ih hin₁ h
      exact ⟨hin₂, fun a ha => hsub₁ (hsub₂ ha)⟩

/-- **C5** — For every sequence of rotation operations without an
intervening `reset`: the current key always lies inside the current model's
usable-key subset, the current model is always still usable, and the
usable-model set only ever shrinks — so a model removed by `rotate_model`
is never current again. -/
theorem C5_rotation_pool_invariant (allKeys allModels : List String)
    (hK : allKeys ≠ []) (hM : allModels ≠ []) (ops : List PoolOp) (st : PoolState)
    (h : runOps allKeys ops (initPool allKeys allModels) = .ok st) :
    (st.currentKey ∈ usableKeys allKeys st st.currentModel ∧
      st.currentModel ∈ st.availableModels) ∧
    ∀ ops₂ st₂, runOps allKeys ops₂ st = .ok st₂ →
      st₂.availableModels ⊆ st.availableModels ∧ st₂.currentModel ∈ st₂.availableModels := by
  obtain ⟨hin, _⟩ := runOps_ok_inv ops hK (initPool_inv _ _ hK hM) h
  refine ⟨⟨hin.curKeyUsable, hin.curModelAvail⟩, ?_⟩
  intro ops₂ st₂ h₂
  obtain ⟨hin₂, hsub⟩ := runOps_ok_inv ops₂ hK hin h₂
  exact ⟨hsub, hin₂.curModelAvail⟩

/-- Witness for C5 at the spec's own scenario: models `[A, B]`, 2 keys;
two `rotate_key` calls exhaust A's keys so the third delegates to
`rotate_model`, and the invariant holds at the final state. -/
theorem C5_rotation_pool_invariant_witness :
    ∃ st, runOps ["k1", "k2"] [PoolOp.key, PoolOp.key, PoolOp.key]
        (initPool ["k1", "k2"] ["A", "B"]) = Except.ok st ∧
      st.currentKey ∈ usableKeys ["k1", "k2"] st st.currentModel ∧
      st.currentModel ∈ st.availableModels := by
  obtain ⟨st, hst⟩ : ∃ st, runOps ["k1", "k2"] [PoolOp.key, PoolOp.key, PoolOp.key]
      (initPool ["k1", "k2"] ["A", "B"]) = Except.ok st := ⟨_, rfl⟩
  obtain ⟨⟨h1, h2⟩, _⟩ :=
    C5_rotation_pool_invariant ["k1", "k2"] ["A", "B"] (by decide) (by decide) _ st hst
  exact ⟨st, hst, h1, h2⟩

/-! ## Stage-engine lemmas -/

/-- Is this call an opening-statement call for the given side? -/
def GenCall.isOpeningOf (role : String) : GenCall → Bool
  | .opening a _ _ => a = role
  | _ => false

/-- Is this call a closing-statement call for the given side? -/
def GenCall.isClosingOf (role : String) : GenCall → Bool
  | .closing _ a _ => a = role
  | _ => false

/-- Is this call a counter-argument call? -/
def GenCall.isCounterCall : GenCall → Bool
  | .counter _ _ _ _ _ => true
  | _ => false

theorem runRounds_trace_counter (gen : Gen) (det : String) :
    ∀ fuel p d hist, ∀ call ∈ (runRounds gen det fuel p d hist).trace,
      call.isCounterCall = true := by
  intro fuel
  induction fuel with
  | zero => intro p d hist call hc; simp [runRounds] at hc
  | succ n ih =>
    intro p d hist call hc
    simp only [runRounds] at hc
    split at hc
    · split at hc
      · split at hc
        · simp only [List.mem_cons] at hc
          rcases hc with rfl | rfl | hc
          · rfl
          · rfl
          · exact ih _ _ _ call hc
        · simp only [List.mem_cons, List.not_mem_nil, or_false] at hc
          rcases hc with rfl | rfl
          · rfl
          · rfl
      · simp only [List.mem_singleton] at hc
        subst hc
        rfl
    · simp at hc

theorem runRounds_saves_inProgress (gen : Gen) (det : String) :
    ∀ fuel p d hist, ∀ sv ∈ (runRounds gen det fuel p d hist).saves,
      sv.status = "in-progress" := by
  intro fuel
  induction fuel with
  | zero => intro p d hist sv hs; simp [runRounds] at hs
  | succ n ih =>
    intro p d hist sv hs
    simp only [runRounds] at hs
    split at hs
    · split at hs
      · split at hs
        · simp only [List.mem_cons] at hs
          rcases hs with rfl | rfl | hs
          · rfl
          · rfl
          · exact ih _ _ _ sv hs
        · simp only [List.mem_singleton] at hs
          subst hs
          rfl
      · simp at hs
    · simp at hs

theorem runRounds_skip (gen : Gen) (det : String) (fuel : Nat)
    (p d hist : List String) (h : ¬ p.length < 3) :
    runRounds gen det fuel p d hist = ⟨[], [], p, d, hist, true⟩ := by
  cases fuel with
  | zero => rfl
  | succ n => simp [runRounds, h]

/-- When the rounds loop reports success with enough fuel, the plaintiff
list has reached exactly length 3 (entering with at most 3 entries). -/
theorem runRounds_ok_length (gen : Gen) (det : String) :
    ∀ fuel p d hist, p.length ≤ 3 → 3 - p.length ≤ fuel →
      (runRounds gen det fuel p d hist).ok = true →
      (runRounds gen det fuel p d hist).plaintiff.length = 3 := by
  intro fuel
  induction fuel with
  | zero =>
    intro p d hist hle hfuel _
    show p.length = 3
    omega
  | succ n ih =>
    intro p d hist hle hfuel hok
    by_cases h3 : p.length < 3
    · simp only [runRounds] at hok ⊢
      rw [if_pos h3] at hok ⊢
      by_cases hP : acceptedResp (generate_counter_argument gen (joinNL hist)
          (pInstr p.length) "Plaintiff" "Defendant" det)
      · rw [if_pos hP] at hok ⊢
        by_cases hD : acceptedResp (generate_counter_argument gen
            (joinNL (hist ++ [generate_counter_argument gen (joinNL hist)
              (pInstr p.length) "Plaintiff" "Defendant" det]))
            (generate_counter_argument gen (joinNL hist) (pInstr p.length)
              "Plaintiff" "Defendant" det) "Defendant" "Plaintiff" det)
        · rw [if_pos hD] at hok ⊢
          dsimp only at hok ⊢
          exact ih _ _ _ (by simp; omega) (by simp; omega) hok
        · rw [if_neg hD] at hok
          dsimp only at hok
          cases hok
      · rw [if_neg hP] at hok
        dsimp only at hok
        cases hok
    · rw [runRounds_skip gen det _ p d hist h3]
      show p.length = 3
      omega

theorem runRounds_defendant_ge (gen : Gen) (det : String) :
    ∀ fuel p d hist, d.length ≤ (runRounds gen det fuel p d hist).defendant.length := by
  intro fuel
  induction fuel with
  | zero => intro p d hist; simp [runRounds]
  | succ n ih =>
    intro p d hist
    simp only [runRounds]
    split
    · split
      · split
        · dsimp only
          calc d.length ≤ (d ++ [_]).length := by simp
            _ ≤ _ := ih _ _ _
        · dsimp only
          exact Nat.le_refl _
      · dsimp only
        exact Nat.le_refl _
    · dsimp only
      exact Nat.le_refl _

theorem runOpeningStep_skip (gen : Gen) (a det u : String) (args : List String)
    (h : args ≠ []) : runOpeningStep gen a det u args = ([], .skipped) := by
  have : ¬ args.length = 0 := by simpa [List.length_eq_zero] using h
  simp [runOpeningStep, this]

theorem runOpeningStep_calls_of_empty (gen : Gen) (a det u : String) :
    (runOpeningStep gen a det u []).1 = [GenCall.opening a det u] := by
  unfold runOpeningStep
  simp only [List.length_nil, if_pos]
  split <;> rfl

theorem runClosingStep_skip (gen : Gen) (a u : String) (args hist : List String)
    (h : ¬ args.length < 4) : runClosingStep gen a u args hist = ([], .skipped) := by
  simp [runClosingStep, h]

theorem runOpeningStep_mem (gen : Gen) (a det u : String) (args : List String) :
    ∀ call ∈ (runOpeningStep gen a det u args).1, call = GenCall.opening a det u := by
  intro call hc
  unfold runOpeningStep at hc
  split at hc
  · dsimp only at hc
    split at hc <;> simpa using hc
  · simp at hc

theorem runClosingStep_mem (gen : Gen) (a u : String) (args hist : List String) :
    ∀ call ∈ (runClosingStep gen a u args hist).1,
      call = GenCall.closing (truncateHistory (joinNL hist)) a u := by
  intro call hc
  unfold runClosingStep at hc
  split at hc
  · dsimp only at hc
    split at hc
    · simpa using hc
    · split at hc <;> simpa using hc
  · simp at hc

theorem countP_openingStep_ne (gen : Gen) (a det u r : String) (h : a ≠ r)
    (args : List String) :
    (runOpeningStep gen a det u args).1.countP (GenCall.isOpeningOf r) = 0 := by
  refine List.countP_eq_zero.mpr ?_
  intro call hc
  rw [runOpeningStep_mem gen a det u args call hc]
  simp [GenCall.isOpeningOf, h]

theorem countP_rounds_opening (gen : Gen) (det : String) (fuel : Nat)
    (p d hist : List String) (r : String) :
    (runRounds gen det fuel p d hist).trace.countP (GenCall.isOpeningOf r) = 0 := by
  refine List.countP_eq_zero.mpr ?_
  intro call hc
  have := runRounds_trace_counter gen det fuel p d hist call hc
  cases call <;> simp_all [GenCall.isCounterCall, GenCall.isOpeningOf]

theorem countP_closeStep_opening (gen : Gen) (a u : String) (args hist : List String)
    (r : String) :
    (runClosingStep gen a u args hist).1.countP (GenCall.isOpeningOf r) = 0 := by
  refine List.countP_eq_zero.mpr ?_
  intro call hc
  rw [runClosingStep_mem gen a u args hist call hc]
  simp [GenCall.isOpeningOf]

/-- The rounds-and-closings tail never makes opening calls: its trace keeps
exactly the opening-call count of the prefix it was handed. -/
theorem engineAfterOpenings_countP_opening (gen : Gen) (det : String)
    (tr1 : List GenCall) (sv1 : List SaveEv) (p1 d1 : List String) (r : String) :
    (engineAfterOpenings gen det tr1 sv1 p1 d1).trace.countP (GenCall.isOpeningOf r) =
      tr1.countP (GenCall.isOpeningOf r) := by
  unfold engineAfterOpenings engineClosings
  dsimp only
  repeat' split
  all_goals simp [List.countP_append, countP_rounds_opening, countP_closeStep_opening]

/-- When every stage is already satisfied, the tail adds no trace. -/
theorem engineAfterOpenings_trace_skip (gen : Gen) (det : String)
    (tr1 : List GenCall) (sv1 : List SaveEv) (p1 d1 : List String)
    (h3 : ¬ p1.length < 3) (h4 : ¬ p1.length < 4) (h5 : ¬ d1.length < 4) :
    (engineAfterOpenings gen det tr1 sv1 p1 d1).trace = tr1 := by
  unfold engineAfterOpenings
  dsimp only
  rw [runRounds_skip gen det 3 _ _ _ h3]
  dsimp only
  rw [if_neg (by simp)]
  unfold engineClosings
  rw [runClosingStep_skip gen "Plaintiff" _ _ _ h4]
  dsimp only
  rw [runClosingStep_skip gen "Defendant" _ _ _ h5]
  dsimp only
  split
  all_goals simp

/-- The tail's trace extends the handed prefix. -/
theorem engineAfterOpenings_trace_ext (gen : Gen) (det : String)
    (tr1 : List GenCall) (sv1 : List SaveEv) (p1 d1 : List String) :
    ∃ rest, (engineAfterOpenings gen det tr1 sv1 p1 d1).trace = tr1 ++ rest := by
  unfold engineAfterOpenings engineClosings
  dsimp only
  repeat' split
  all_goals first
  | exact ⟨_, rfl⟩
  | exact ⟨_, List.append_assoc _ _ _⟩
  | exact ⟨_, by rw [List.append_assoc, List.append_assoc]⟩

/-- The first call of the tail's trace is the first call of the prefix. -/
theorem engineAfterOpenings_trace_headq (gen : Gen) (det : String)
    (tr1 : List GenCall) (sv1 : List SaveEv) (p1 d1 : List String) (call : GenCall)
    (h : tr1.head? = some call) :
    (engineAfterOpenings gen det tr1 sv1 p1 d1).trace.head? = some call := by
  obtain ⟨rest, hrest⟩ := engineAfterOpenings_trace_ext gen det tr1 sv1 p1 d1
  rw [hrest]
  cases tr1 with
  | nil => simp at h
  | cons a t => simpa using h

/-- **C3** — idempotent resume: a nonempty plaintiff (resp. defendant) list
suppresses the corresponding opening call, a fully complete case triggers no
generation call at all, and the spec scenario `plaintiff=[open]`,
`defendant=[]` makes the defendant opening the first and only opening call. -/
theorem C3_idempotent_resume (gen : Gen) (c : CaseDoc) :
    (c.plaintiff_arguments ≠ [] →
      (generate_arguments_for_case gen c).trace.countP (GenCall.isOpeningOf "Plaintiff") = 0) ∧
    (c.defendant_arguments ≠ [] →
      (generate_arguments_for_case gen c).trace.countP (GenCall.isOpeningOf "Defendant") = 0) ∧
    (4 ≤ c.plaintiff_arguments.length → 4 ≤ c.defendant_arguments.length →
      (generate_arguments_for_case gen c).trace = []) ∧
    (∀ popen, c.plaintiff_arguments = [popen] → c.defendant_arguments = [] →
      (generate_arguments_for_case gen c).trace.countP (GenCall.isOpeningOf "Defendant") = 1 ∧
      (generate_arguments_for_case gen c).trace.countP (GenCall.isOpeningOf "Plaintiff") = 0 ∧
      (generate_arguments_for_case gen c).trace.head? =
        some (GenCall.opening "Defendant" c.details "Plaintiff")) := by
  refine ⟨?_, ?_, ?_, ?_⟩
  · intro hp
    rw [generate_arguments_for_case, runOpeningStep_skip gen _ _ _ _ hp]
    dsimp only
    repeat' split
    all_goals simp [engineAfterOpenings_countP_opening, List.countP_append,
      countP_openingStep_ne gen "Defendant" c.details "Plaintiff" "Plaintiff" (by decide)]
  · intro hd
    rw [generate_arguments_for_case, runOpeningStep_skip gen "Defendant" _ _ _ hd]
    dsimp only
    repeat' split
    all_goals simp [engineAfterOpenings_countP_opening, List.countP_append,
      countP_openingStep_ne gen "Plaintiff" c.details "Defendant" "Defendant" (by decide)]
  · intro hp4 hd4
    have hpne : c.plaintiff_arguments ≠ [] := by
      intro h; rw [h] at hp4; simp at hp4
    have hdne : c.defendant_arguments ≠ [] := by
      intro h; rw [h] at hd4; simp at hd4
    rw [generate_arguments_for_case, runOpeningStep_skip gen _ _ _ _ hpne,
      runOpeningStep_skip gen "Defendant" _ _ _ hdne]
    dsimp only
    rw [engineAfterOpenings_trace_skip gen c.details _ _ _ _ (by omega) (by omega) (by omega)]
    rfl
  · intro popen hp hd
    rw [generate_arguments_for_case,
      runOpeningStep_skip gen _ _ _ _ (by rw [hp]; simp), hd]
    dsimp only
    have hcall : (runOpeningStep gen "Defendant" c.details "Plaintiff" []).1 =
        [GenCall.opening "Defendant" c.details "Plaintiff"] :=
      runOpeningStep_calls_of_empty gen "Defendant" c.details "Plaintiff"
    cases hres : (runOpeningStep gen "Defendant" c.details "Plaintiff" []).2 with
    | rejected =>
      simp only [hres]
      refine ⟨?_, ?_, ?_⟩ <;> simp [hcall, GenCall.isOpeningOf]
    | raised e =>
      simp only [hres]
      refine ⟨?_, ?_, ?_⟩ <;> simp [hcall, GenCall.isOpeningOf]
    | skipped =>
      simp only [hres]
      refine ⟨?_, ?_, ?_⟩
      · rw [engineAfterOpenings_countP_opening]
        simp [hcall, GenCall.isOpeningOf]
      · rw [engineAfterOpenings_countP_opening]
        simp [hcall, GenCall.isOpeningOf]
      · refine engineAfterOpenings_trace_headq gen c.details _ _ _ _ _ ?_
        simp [hcall]
    | accepted s =>
      simp only [hres]
      refine ⟨?_, ?_, ?_⟩
      · rw [engineAfterOpenings_countP_opening]
        simp [hcall, GenCall.isOpeningOf]
      · rw [engineAfterOpenings_countP_opening]
        simp [hcall, GenCall.isOpeningOf]
      · refine engineAfterOpenings_trace_headq gen c.details _ _ _ _ _ ?_
        simp [hcall]

/-- Witness for C3 at a concrete resumed case. -/
theorem C3_idempotent_resume_witness :
    (generate_arguments_for_case (fun _ => .error "boom")
        ⟨7, "t", "d", ["open"], [], "in-progress", "", 0⟩).trace.countP
      (GenCall.isOpeningOf "Defendant") = 1 ∧
    (generate_arguments_for_case (fun _ => .error "boom")
        ⟨7, "t", "d", ["open"], [], "in-progress", "", 0⟩).trace.countP
      (GenCall.isOpeningOf "Plaintiff") = 0 := by
  obtain ⟨-, -, -, h4⟩ := C3_idempotent_resume (fun _ => .error "boom")
    ⟨7, "t", "d", ["open"], [], "in-progress", "", 0⟩
  obtain ⟨h1, h2, -⟩ := h4 "open" rfl rfl
  exact ⟨h1, h2⟩

theorem runOpeningStep_res_empty (gen : Gen) (a det u : String) (args : List String) :
    (runOpeningStep gen a det u args).2 ≠ .skipped → args = [] := by
  intro h
  by_contra hne
  rw [runOpeningStep_skip gen a det u args hne] at h
  exact h rfl

theorem runOpeningStep_not_raised (gen : Gen) (a det u : String) (args : List String)
    (e : String) : (runOpeningStep gen a det u args).2 = .raised e → False := by
  intro h
  unfold runOpeningStep at h
  split at h
  · dsimp only at h
    split at h <;> simp at h
  · simp at h

theorem runClosingStep_res_lt (gen : Gen) (a u : String) (args hist : List String) :
    (runClosingStep gen a u args hist).2 ≠ .skipped → args.length < 4 := by
  intro h
  by_contra hlt
  rw [runClosingStep_skip gen a u args hist hlt] at h
  exact h rfl

theorem runRounds_fail_le (gen : Gen) (det : String) :
    ∀ fuel p d hist, (runRounds gen det fuel p d hist).ok = false →
      (runRounds gen det fuel p d hist).plaintiff.length ≤ 3 := by
  intro fuel
  induction fuel with
  | zero => intro p d hist hok; simp [runRounds] at hok
  | succ n ih =>
    intro p d hist hok
    by_cases h3 : p.length < 3
    · simp only [runRounds] at hok ⊢
      rw [if_pos h3] at hok ⊢
      by_cases hP : acceptedResp (generate_counter_argument gen (joinNL hist)
          (pInstr p.length) "Plaintiff" "Defendant" det)
      · rw [if_pos hP] at hok ⊢
        by_cases hD : acceptedResp (generate_counter_argument gen
            (joinNL (hist ++ [generate_counter_argument gen (joinNL hist)
              (pInstr p.length) "Plaintiff" "Defendant" det]))
            (generate_counter_argument gen (joinNL hist) (pInstr p.length)
              "Plaintiff" "Defendant" det) "Defendant" "Plaintiff" det)
        · rw [if_pos hD] at hok ⊢
          dsimp only at hok ⊢
          exact ih _ _ _ hok
        · rw [if_neg hD] at hok ⊢
          dsimp only
          simp
          omega
      · rw [if_neg hP] at hok ⊢
        dsimp only
        omega
    · rw [runRounds_skip gen det _ p d hist h3] at hok
      simp at hok

/-- Full characterisation of the closing phase used by the resolved-status
invariant: its checkpoints extend the prefix with in-progress saves plus a
final resolved save exactly on success, and success happens iff both final
lists have length exactly 4. -/
theorem engineClosings_spec (gen : Gen) (det : String) (tr : List GenCall)
    (sv : List SaveEv) (p d hist : List String) :
    (∃ extra,
      (engineClosings gen det tr sv p d hist).saves = sv ++ extra ∧
      (∀ x ∈ extra, x.status = "in-progress" ∨ (x.status = "resolved" ∧
        (engineClosings gen det tr sv p d hist).result = Except.ok true)) ∧
      ((engineClosings gen det tr sv p d hist).result = Except.ok true →
        ∃ x ∈ extra, x.status = "resolved")) ∧
    ((engineClosings gen det tr sv p d hist).result = Except.ok true ↔
      ((engineClosings gen det tr sv p d hist).plaintiff.length = 4 ∧
       (engineClosings gen det tr sv p d hist).defendant.length = 4)) := by
  unfold engineClosings
  dsimp only
  cases hcP : (runClosingStep gen "Plaintiff" "Defendant" p hist).2 with
  | rejected =>
    have hp4 : p.length < 4 :=
      runClosingStep_res_lt gen "Plaintiff" "Defendant" p hist (by rw [hcP]; simp)
    simp only [hcP]
    refine ⟨⟨[], by simp, by simp, by simp⟩, ?_⟩
    dsimp only
    constructor
    · intro h; cases h
    · intro h; omega
  | raised e =>
    have hp4 : p.length < 4 :=
      runClosingStep_res_lt gen "Plaintiff" "Defendant" p hist (by rw [hcP]; simp)
    simp only [hcP]
    refine ⟨⟨[], by simp, by simp, by simp⟩, ?_⟩
    dsimp only
    constructor
    · intro h; cases h
    · intro h; omega
  | skipped =>
    simp only [hcP]
    cases hcD : (runClosingStep gen "Defendant" "Plaintiff" d hist).2 with
    | rejected =>
      have hd4 : d.length < 4 :=
        runClosingStep_res_lt gen "Defendant" "Plaintiff" d hist (by rw [hcD]; simp)
      simp only [hcD]
      refine ⟨⟨[], by simp, by simp, by simp⟩, ?_⟩
      dsimp only
      constructor
      · intro h; cases h
      · intro h; omega
    | raised e =>
      have hd4 : d.length < 4 :=
        runClosingStep_res_lt gen "Defendant" "Plaintiff" d hist (by rw [hcD]; simp)
      simp only [hcD]
      refine ⟨⟨[], by simp, by simp, by simp⟩, ?_⟩
      dsimp only
      constructor
      · intro h; cases h
      · intro h; omega
    | skipped =>
      simp only [hcD]
      by_cases hfin : p.length = 4 ∧ d.length = 4
      · rw [if_pos hfin]
        refine ⟨⟨[⟨p, d, "resolved"⟩], by simp, ?_, ?_⟩, ?_⟩
        · intro x hx
          simp at hx
          subst hx
          exact Or.inr ⟨rfl, rfl⟩
        · intro _
          exact ⟨⟨p, d, "resolved"⟩, by simp, rfl⟩
        · dsimp only
          exact ⟨fun _ => hfin, fun _ => rfl⟩
      · rw [if_neg hfin]
        refine ⟨⟨[], by simp, by simp, by simp⟩, ?_⟩
        dsimp only
        constructor
        · intro h; cases h
        · intro h; exact absurd h hfin
    | accepted s =>
      simp only [hcD]
      by_cases hfin : p.length = 4 ∧ (d ++ [s]).length = 4
      · rw [if_pos hfin]
        refine ⟨⟨[⟨p, d ++ [s], "in-progress"⟩, ⟨p, d ++ [s], "resolved"⟩], by simp, ?_, ?_⟩, ?_⟩
        · intro x hx
          simp at hx
          rcases hx with rfl | rfl
          · exact Or.inl rfl
          · exact Or.inr ⟨rfl, rfl⟩
        · intro _
          exact ⟨⟨p, d ++ [s], "resolved"⟩, by simp, rfl⟩
        · dsimp only
          exact ⟨fun _ => hfin, fun _ => rfl⟩
      · rw [if_neg hfin]
        refine ⟨⟨[⟨p, d ++ [s], "in-progress"⟩], by simp, ?_, by simp⟩, ?_⟩
        · intro x hx
          simp at hx
          subst hx
          exact Or.inl rfl
        · dsimp only
          constructor
          · intro h; cases h
          · intro h; exact absurd h hfin
  | accepted s =>
    simp only [hcP]
    cases hcD : (runClosingStep gen "Defendant" "Plaintiff" d (hist ++ [s])).2 with
    | rejected =>
      have hd4 : d.length < 4 :=
        runClosingStep_res_lt gen "Defendant" "Plaintiff" d (hist ++ [s]) (by rw [hcD]; simp)
      simp only [hcD]
      refine ⟨⟨[⟨p ++ [s], d, "in-progress"⟩], by simp, ?_, by simp⟩, ?_⟩
      · intro x hx
        simp at hx
        subst hx
        exact Or.inl rfl
      · dsimp only
        constructor
        · intro h; cases h
        · intro h; omega
    | raised e =>
      have hd4 : d.length < 4 :=
        runClosingStep_res_lt gen "Defendant" "Plaintiff" d (hist ++ [s]) (by rw [hcD]; simp)
      simp only [hcD]
      refine ⟨⟨[⟨p ++ [s], d, "in-progress"⟩], by simp, ?_, by simp⟩, ?_⟩
      · intro x hx
        simp at hx
        subst hx
        exact Or.inl rfl
      · dsimp only
        constructor
        · intro h; cases h
        · intro h; omega
    | skipped =>
      simp only [hcD]
      by_cases hfin : (p ++ [s]).length = 4 ∧ d.length = 4
      · rw [if_pos hfin]
        refine ⟨⟨[⟨p ++ [s], d, "in-progress"⟩, ⟨p ++ [s], d, "resolved"⟩], by simp, ?_, ?_⟩, ?_⟩
        · intro x hx
          simp at hx
          rcases hx with rfl | rfl
          · exact Or.inl rfl
          · exact Or.inr ⟨rfl, rfl⟩
        · intro _
          exact ⟨⟨p ++ [s], d, "resolved"⟩, by simp, rfl⟩
        · dsimp only
          exact ⟨fun _ => hfin, fun _ => rfl⟩
      · rw [if_neg hfin]
        refine ⟨⟨[⟨p ++ [s], d, "in-progress"⟩], by simp, ?_, by simp⟩, ?_⟩
        · intro x hx
          simp at hx
          subst hx
          exact Or.inl rfl
        · dsimp only
          constructor
          · intro h; cases h
          · intro h; exact absurd h hfin
    | accepted s' =>
      simp only [hcD]
      by_cases hfin : (p ++ [s]).length = 4 ∧ (d ++ [s']).length = 4
      · rw [if_pos hfin]
        refine ⟨⟨[⟨p ++ [s], d, "in-progress"⟩, ⟨p ++ [s], d ++ [s'], "in-progress"⟩,
          ⟨p ++ [s], d ++ [s'], "resolved"⟩], by simp, ?_, ?_⟩, ?_⟩
        · intro x hx
          simp at hx
          rcases hx with rfl | rfl | rfl
          · exact Or.inl rfl
          · exact Or.inl rfl
          · exact Or.inr ⟨rfl, rfl⟩
        · intro _
          exact ⟨⟨p ++ [s], d ++ [s'], "resolved"⟩, by simp, rfl⟩
        · dsimp only
          exact ⟨fun _ => hfin, fun _ => rfl⟩
      · rw [if_neg hfin]
        refine ⟨⟨[⟨p ++ [s], d, "in-progress"⟩, ⟨p ++ [s], d ++ [s'], "in-progress"⟩],
          by simp, ?_, by simp⟩, ?_⟩
        · intro x hx
          simp at hx
          rcases hx with rfl | rfl
          · exact Or.inl rfl
          · exact Or.inl rfl
        · dsimp only
          constructor
          · intro h; cases h
          · intro h; exact absurd h hfin

/-- The same characterisation lifted over the rounds loop. -/
theorem engineAfterOpenings_spec (gen : Gen) (det : String) (tr1 : List GenCall)
    (sv1 : List SaveEv) (p1 d1 : List String) :
    (∃ extra,
      (engineAfterOpenings gen det tr1 sv1 p1 d1).saves = sv1 ++ extra ∧
      (∀ x ∈ extra, x.status = "in-progress" ∨ (x.status = "resolved" ∧
        (engineAfterOpenings gen det tr1 sv1 p1 d1).result = Except.ok true)) ∧
      ((engineAfterOpenings gen det tr1 sv1 p1 d1).result = Except.ok true →
        ∃ x ∈ extra, x.status = "resolved")) ∧
    ((engineAfterOpenings gen det tr1 sv1 p1 d1).result = Except.ok true ↔
      ((engineAfterOpenings gen det tr1 sv1 p1 d1).plaintiff.length = 4 ∧
       (engineAfterOpenings gen det tr1 sv1 p1 d1).defendant.length = 4)) := by
  unfold engineAfterOpenings
  dsimp only
  by_cases hok : (runRounds gen det 3 p1 d1 (p1 ++ d1)).ok = false
  · rw [if_pos hok]
    have hle := runRounds_fail_le gen det 3 p1 d1 (p1 ++ d1) hok
    refine ⟨⟨(runRounds gen det 3 p1 d1 (p1 ++ d1)).saves, rfl, ?_, by simp⟩, ?_⟩
    · intro x hx
      exact Or.inl (runRounds_saves_inProgress gen det 3 p1 d1 (p1 ++ d1) x hx)
    · dsimp only
      constructor
      · intro h; cases h
      · intro h; omega
  · rw [if_neg hok]
    obtain ⟨⟨extra, hsv, hst, hres⟩, hiff⟩ := engineClosings_spec gen det
      (tr1 ++ (runRounds gen det 3 p1 d1 (p1 ++ d1)).trace)
      (sv1 ++ (runRounds gen det 3 p1 d1 (p1 ++ d1)).saves)
      (runRounds gen det 3 p1 d1 (p1 ++ d1)).plaintiff
      (runRounds gen det 3 p1 d1 (p1 ++ d1)).defendant
      (runRounds gen det 3 p1 d1 (p1 ++ d1)).history
    refine ⟨⟨(runRounds gen det 3 p1 d1 (p1 ++ d1)).saves ++ extra, ?_, ?_, ?_⟩, hiff⟩
    · rw [hsv, List.append_assoc]
    · intro x hx
      rcases List.mem_append.mp hx with hx | hx
      · exact Or.inl (runRounds_saves_inProgress gen det 3 p1 d1 (p1 ++ d1) x hx)
      · exact hst x hx
    · intro h
      obtain ⟨x, hx, hxs⟩ := hres h
      exact ⟨x, List.mem_append.mpr (Or.inr hx), hxs⟩

/-- **C2** — the stage engine returns success (and only then writes a
`resolved` checkpoint) exactly when the final plaintiff and defendant lists
both have exactly 4 entries; every other checkpoint it writes has status
`in-progress`, and an incomplete case yields a non-fatal `False` return. -/
theorem C2_resolved_iff_four (gen : Gen) (c : CaseDoc) :
    ((generate_arguments_for_case gen c).result = Except.ok true ↔
      ((generate_arguments_for_case gen c).plaintiff.length = 4 ∧
       (generate_arguments_for_case gen c).defendant.length = 4)) ∧
    ((∃ sv ∈ (generate_arguments_for_case gen c).saves, sv.status = "resolved") ↔
      (generate_arguments_for_case gen c).result = Except.ok true) ∧
    (∀ sv ∈ (generate_arguments_for_case gen c).saves,
      sv.status = "in-progress" ∨ sv.status = "resolved") := by
  rw [generate_arguments_for_case]
  dsimp only
  cases hoP : (runOpeningStep gen "Plaintiff" c.details "Defendant" c.plaintiff_arguments).2 with
  | raised e => exact absurd hoP (fun h => runOpeningStep_not_raised gen _ _ _ _ e h)
  | rejected =>
    have hp0 : c.plaintiff_arguments = [] :=
      runOpeningStep_res_empty gen _ _ _ _ (by rw [hoP]; simp)
    simp only [hoP]
    refine ⟨?_, by simp, by simp⟩
    dsimp only
    constructor
    · intro h; cases h
    · intro h; rw [hp0] at h; simp at h
  | skipped =>
    simp only [hoP]
    cases hoD : (runOpeningStep gen "Defendant" c.details "Plaintiff" c.defendant_arguments).2 with
    | raised e => exact absurd hoD (fun h => runOpeningStep_not_raised gen _ _ _ _ e h)
    | rejected =>
      have hd0 : c.defendant_arguments = [] :=
        runOpeningStep_res_empty gen _ _ _ _ (by rw [hoD]; simp)
      simp only [hoD]
      refine ⟨?_, by simp, by simp⟩
      dsimp only
      constructor
      · intro h; cases h
      · intro h; rw [hd0] at h; simp at h
    | skipped =>
      simp only [hoD]
      obtain ⟨⟨extra, hsv, hst, hres⟩, hiff⟩ := engineAfterOpenings_spec gen c.details
        ((runOpeningStep gen "Plaintiff" c.details "Defendant" c.plaintiff_arguments).1 ++
          (runOpeningStep gen "Defendant" c.details "Plaintiff" c.defendant_arguments).1)
        [] c.plaintiff_arguments c.defendant_arguments
      refine ⟨hiff, ?_, ?_⟩
      · rw [hsv]
        constructor
        · rintro ⟨sv, hm, hs⟩
          rcases List.mem_append.mp hm with hm | hm
          · simp at hm
          · rcases hst sv hm with h | ⟨_, h⟩
            · rw [hs] at h; exact absurd h (by decide)
            · exact h
        · intro h
          obtain ⟨x, hx, hxs⟩ := hres h
          exact ⟨x, List.mem_append.mpr (Or.inr hx), hxs⟩
      · rw [hsv]
        intro sv hm
        rcases List.mem_append.mp hm with hm | hm
        · simp at hm
        · rcases hst sv hm with h | ⟨h, _⟩
          · exact Or.inl h
          · exact Or.inr h
    | accepted s =>
      simp only [hoD, List.nil_append]
      obtain ⟨⟨extra, hsv, hst, hres⟩, hiff⟩ := engineAfterOpenings_spec gen c.details
        ((runOpeningStep gen "Plaintiff" c.details "Defendant" c.plaintiff_arguments).1 ++
          (runOpeningStep gen "Defendant" c.details "Plaintiff" c.defendant_arguments).1)
        [⟨c.plaintiff_arguments, c.defendant_arguments ++ [s], "in-progress"⟩]
        c.plaintiff_arguments (c.defendant_arguments ++ [s])
      refine ⟨hiff, ?_, ?_⟩
      · rw [hsv]
        constructor
        · rintro ⟨sv, hm, hs⟩
          rcases List.mem_append.mp hm with hm | hm
          · simp at hm
            rw [hm] at hs
            exact absurd hs (by simp)
          · rcases hst sv hm with h | ⟨_, h⟩
            · rw [hs] at h; exact absurd h (by decide)
            · exact h
        · intro h
          obtain ⟨x, hx, hxs⟩ := hres h
          exact ⟨x, List.mem_append.mpr (Or.inr hx), hxs⟩
      · rw [hsv]
        intro sv hm
        rcases List.mem_append.mp hm with hm | hm
        · simp at hm
          rw [hm]
          exact Or.inl rfl
        · rcases hst sv hm with h | ⟨h, _⟩
          · exact Or.inl h
          · exact Or.inr h
  | accepted sp =>
    simp only [hoP]
    cases hoD : (runOpeningStep gen "Defendant" c.details "Plaintiff" c.defendant_arguments).2 with
    | raised e => exact absurd hoD (fun h => runOpeningStep_not_raised gen _ _ _ _ e h)
    | rejected =>
      have hd0 : c.defendant_arguments = [] :=
        runOpeningStep_res_empty gen _ _ _ _ (by rw [hoD]; simp)
      simp only [hoD]
      refine ⟨?_, ?_, ?_⟩
      · dsimp only
        constructor
        · intro h; cases h
        · intro h; rw [hd0] at h; simp at h
      · dsimp only
        constructor
        · rintro ⟨sv, hm, hs⟩
          simp at hm
          rw [hm] at hs
          exact absurd hs (by simp)
        · intro h; cases h
      · dsimp only
        intro sv hm
        simp at hm
        rw [hm]
        exact Or.inl rfl
    | skipped =>
      simp only [hoD]
      obtain ⟨⟨extra, hsv, hst, hres⟩, hiff⟩ := engineAfterOpenings_spec gen c.details
        ((runOpeningStep gen "Plaintiff" c.details "Defendant" c.plaintiff_arguments).1 ++
          (runOpeningStep gen "Defendant" c.details "Plaintiff" c.defendant_arguments).1)
        [⟨c.plaintiff_arguments ++ [sp], c.defendant_arguments, "in-progress"⟩]
        (c.plaintiff_arguments ++ [sp]) c.defendant_arguments
      refine ⟨hiff, ?_, ?_⟩
      · rw [hsv]
        constructor
        · rintro ⟨sv, hm, hs⟩
          rcases List.mem_append.mp hm with hm | hm
          · simp at hm
            rw [hm] at hs
            exact absurd hs (by simp)
          · rcases hst sv hm with h | ⟨_, h⟩
            · rw [hs] at h; exact absurd h (by decide)
            · exact h
        · intro h
          obtain ⟨x, hx, hxs⟩ := hres h
          exact ⟨x, List.mem_append.mpr (Or.inr hx), hxs⟩
      · rw [hsv]
        intro sv hm
        rcases List.mem_append.mp hm with hm | hm
        · simp at hm
          rw [hm]
          exact Or.inl rfl
        · rcases hst sv hm with h | ⟨h, _⟩
          · exact Or.inl h
          · exact Or.inr h
    | accepted s =>
      simp only [hoD]
      obtain ⟨⟨extra, hsv, hst, hres⟩, hiff⟩ := engineAfterOpenings_spec gen c.details
        ((runOpeningStep gen "Plaintiff" c.details "Defendant" c.plaintiff_arguments).1 ++
          (runOpeningStep gen "Defendant" c.details "Plaintiff" c.defendant_arguments).1)
        ([⟨c.plaintiff_arguments ++ [sp], c.defendant_arguments, "in-progress"⟩] ++
          [⟨c.plaintiff_arguments ++ [sp], c.defendant_arguments ++ [s], "in-progress"⟩])
        (c.plaintiff_arguments ++ [sp]) (c.defendant_arguments ++ [s])
      refine ⟨hiff, ?_, ?_⟩
      · rw [hsv]
        constructor
        · rintro ⟨sv, hm, hs⟩
          rcases List.mem_append.mp hm with hm | hm
          · simp at hm
            rcases hm with hm | hm <;> (rw [hm] at hs; exact absurd hs (by simp))
          · rcases hst sv hm with h | ⟨_, h⟩
            · rw [hs] at h; exact absurd h (by decide)
            · exact h
        · intro h
          obtain ⟨x, hx, hxs⟩ := hres h
          exact ⟨x, List.mem_append.mpr (Or.inr hx), hxs⟩
      · rw [hsv]
        intro sv hm
        rcases List.mem_append.mp hm with hm | hm
        · simp at hm
          rcases hm with hm | hm <;> (rw [hm]; exact Or.inl rfl)
        · rcases hst sv hm with h | ⟨h, _⟩
          · exact Or.inl h
          · exact Or.inr h

/-- Witness for C2: a fully argued case (4 statements per side) is marked
resolved, and a details-only case under a failing generator is not. -/
theorem C2_resolved_iff_four_witness :
    (generate_arguments_for_case (fun _ => .error "x")
        ⟨1, "t", "d", ["a", "b", "c", "e"], ["f", "g", "h", "i"], "in-progress", "", 0⟩).result
      = Except.ok true ∧
    (generate_arguments_for_case (fun _ => .error "x")
        ⟨2, "t", "d", [], [], "details-only", "", 0⟩).result ≠ Except.ok true := by
  constructor
  · exact (C2_resolved_iff_four (fun _ => .error "x")
      ⟨1, "t", "d", ["a", "b", "c", "e"], ["f", "g", "h", "i"], "in-progress", "", 0⟩).1.mpr
      ⟨by decide, by decide⟩
  · intro h
    have := (C2_resolved_iff_four (fun _ => .error "x")
      ⟨2, "t", "d", [], [], "details-only", "", 0⟩).1.mp h
    revert this
    decide

/-! ## C8: round structure, and C10: error containment -/

/-- A generation oracle returning a fixed valid argument text. -/
def genValid : Gen := fun _ =>
  .ok "The contract was breached on the record and the evidence presented strongly supports this position."

/-- **C8 counterexample** — resuming after both openings, the first
counter-argument call's immediate prompt (`last_argument`) is the fixed
round instruction, not the most recent opposing statement `"D0"`. -/
theorem C8_counterexample :
    (generate_arguments_for_case genValid
        ⟨3, "t", "d", ["P0"], ["D0"], "in-progress", "", 0⟩).trace.head? =
      some (GenCall.counter "P0\nD0" "Plaintiff, present your round 1 argument"
        "Plaintiff" "Defendant" "d") ∧
    "Plaintiff, present your round 1 argument" ≠ "D0" := by
  constructor
  · rfl
  · decide

/-- **C8 (amended)** — counter rounds alternate until the plaintiff list
reaches length 3: each iteration first issues a plaintiff call whose context
is the full running history and whose immediate prompt is the round
instruction naming the current round number, then (when the plaintiff
argument is accepted) a defendant call whose context is the history extended
with that argument and whose immediate prompt is that plaintiff argument. -/
theorem C8_rounds_structure (gen : Gen) (det : String) (p d hist : List String)
    (fuel : Nat) (h3 : p.length < 3) :
    ((runRounds gen det (fuel + 1) p d hist).trace.head? =
      some (GenCall.counter (joinNL hist) (pInstr p.length) "Plaintiff" "Defendant" det)) ∧
    (acceptedResp (generate_counter_argument gen (joinNL hist) (pInstr p.length)
        "Plaintiff" "Defendant" det) = true →
      (runRounds gen det (fuel + 1) p d hist).trace.tail.head? =
        some (GenCall.counter
          (joinNL (hist ++ [generate_counter_argument gen (joinNL hist) (pInstr p.length)
            "Plaintiff" "Defendant" det]))
          (generate_counter_argument gen (joinNL hist) (pInstr p.length)
            "Plaintiff" "Defendant" det) "Defendant" "Plaintiff" det)) ∧
    (p.length ≤ 3 → 3 - p.length ≤ fuel + 1 →
      (runRounds gen det (fuel + 1) p d hist).ok = true →
      (runRounds gen det (fuel + 1) p d hist).plaintiff.length = 3) := by
  refine ⟨?_, ?_, runRounds_ok_length gen det (fuel + 1) p d hist⟩
  · simp only [runRounds]
    rw [if_pos h3]
    by_cases hP : acceptedResp (generate_counter_argument gen (joinNL hist)
        (pInstr p.length) "Plaintiff" "Defendant" det)
    · rw [if_pos hP]
      by_cases hD : acceptedResp (generate_counter_argument gen
          (joinNL (hist ++ [generate_counter_argument gen (joinNL hist)
            (pInstr p.length) "Plaintiff" "Defendant" det]))
          (generate_counter_argument gen (joinNL hist) (pInstr p.length)
          "Plaintiff" "Defendant" det) "Defendant" "Plaintiff" det)
      · rw [if_pos hD]
        rfl
      · rw [if_neg hD]
        rfl
    · rw [if_neg hP]
      rfl
  · intro hP
    simp only [runRounds]
    rw [if_pos h3, if_pos hP]
    by_cases hD : acceptedResp (generate_counter_argument gen
        (joinNL (hist ++ [generate_counter_argument gen (joinNL hist)
          (pInstr p.length) "Plaintiff" "Defendant" det]))
        (generate_counter_argument gen (joinNL hist) (pInstr p.length)
        "Plaintiff" "Defendant" det) "Defendant" "Plaintiff" det)
    · rw [if_pos hD]
      rfl
    · rw [if_neg hD]
      rfl

/-- Witness for the amended C8 at a concrete resumed case with a valid
generator: the round-1 calls and the final plaintiff length. -/
theorem C8_rounds_structure_witness :
    (runRounds genValid "d" 3 ["P0"] ["D0"] ["P0", "D0"]).trace.head? =
      some (GenCall.counter "P0\nD0" (pInstr 1) "Plaintiff" "Defendant" "d") ∧
    (runRounds genValid "d" 3 ["P0"] ["D0"] ["P0", "D0"]).plaintiff.length = 3 := by
  obtain ⟨h1, _, h3⟩ :=
    C8_rounds_structure genValid "d" ["P0"] ["D0"] ["P0", "D0"] 2 (by decide)
  exact ⟨h1, h3 (by decide) (by decide) (by decide)⟩

theorem runClosingStep_raised (gen : Gen) (a u : String) (args hist : List String)
    (e : String) : (runClosingStep gen a u args hist).2 = .raised e →
    closing_statement gen (joinNL hist) a u = .error e := by
  intro h
  unfold runClosingStep at h
  split at h
  · dsimp only at h
    split at h
    next e' heq =>
      dsimp only at h
      injection h with h
      rw [heq, h]
    next resp heq =>
      split at h <;> simp at h
  · simp at h

theorem engineClosings_error (gen : Gen) (det : String) (tr : List GenCall)
    (sv : List SaveEv) (p d hist : List String) (e : String) :
    (engineClosings gen det tr sv p d hist).result = .error e →
    ∃ h a u, closing_statement gen h a u = Except.error e := by
  intro herr
  unfold engineClosings at herr
  dsimp only at herr
  cases hcP : (runClosingStep gen "Plaintiff" "Defendant" p hist).2 with
  | rejected => rw [hcP] at herr; simp at herr
  | raised e' =>
    rw [hcP] at herr
    dsimp only at herr
    injection herr with herr
    subst herr
    exact ⟨joinNL hist, "Plaintiff", "Defendant",
      runClosingStep_raised gen "Plaintiff" "Defendant" p hist e' hcP⟩
  | skipped =>
    rw [hcP] at herr
    dsimp only at herr
    cases hcD : (runClosingStep gen "Defendant" "Plaintiff" d hist).2 with
    | rejected => rw [hcD] at herr; simp at herr
    | raised e' =>
      rw [hcD] at herr
      dsimp only at herr
      injection herr with herr
      subst herr
      exact ⟨joinNL hist, "Defendant", "Plaintiff",
        runClosingStep_raised gen "Defendant" "Plaintiff" d hist e' hcD⟩
    | skipped =>
      rw [hcD] at herr
      dsimp only at herr
      split at herr <;> simp at herr
    | accepted s =>
      rw [hcD] at herr
      dsimp only at herr
      split at herr <;> simp at herr
  | accepted s =>
    rw [hcP] at herr
    dsimp only at herr
    cases hcD : (runClosingStep gen "Defendant" "Plaintiff" d (hist ++ [s])).2 with
    | rejected => rw [hcD] at herr; simp at herr
    | raised e' =>
      rw [hcD] at herr
      dsimp only at herr
      injection herr with herr
      subst herr
      exact ⟨joinNL (hist ++ [s]), "Defendant", "Plaintiff",
        runClosingStep_raised gen "Defendant" "Plaintiff" d (hist ++ [s]) e' hcD⟩
    | skipped =>
      rw [hcD] at herr
      dsimp only at herr
      split at herr <;> simp at herr
    | accepted s' =>
      rw [hcD] at herr
      dsimp only at herr
      split at herr <;> simp at herr

theorem engineAfterOpenings_error (gen : Gen) (det : String) (tr1 : List GenCall)
    (sv1 : List SaveEv) (p1 d1 : List String) (e : String) :
    (engineAfterOpenings gen det tr1 sv1 p1 d1).result = .error e →
    ∃ h a u, closing_statement gen h a u = Except.error e := by
  intro herr
  unfold engineAfterOpenings at herr
  dsimp only at herr
  by_cases hok : (runRounds gen det 3 p1 d1 (p1 ++ d1)).ok = false
  · rw [if_pos hok] at herr
    simp at herr
  · rw [if_neg hok] at herr
    exact engineClosings_error gen det _ _ _ _ _ e herr

/-- **C10** — the opening and counter-argument adapters never propagate an
exception: any oracle error yields the fixed apology fallback, which the
validity check rejects; and any exception escaping the stage engine can only
come from `closing_statement`, the one adapter that re-raises. -/
theorem C10_lawyer_error_containment :
    (is_valid_response openingFallback = false ∧
     is_valid_response counterFallback = false) ∧
    (∀ (gen : Gen) (a det u e : String), gen (GenCall.opening a det u) = .error e →
      opening_statement gen a det u = openingFallback) ∧
    (∀ (gen : Gen) (h l a u cd e : String), gen (GenCall.counter h l a u cd) = .error e →
      generate_counter_argument gen h l a u cd = counterFallback) ∧
    (∀ (gen : Gen) (c : CaseDoc) (e : String),
      (generate_arguments_for_case gen c).result = Except.error e →
      ∃ h a u, closing_statement gen h a u = Except.error e) := by
  refine ⟨⟨by decide, by decide⟩, ?_, ?_, ?_⟩
  · intro gen a det u e h
    simp [opening_statement, h]
  · intro gen h l a u cd e he
    simp [generate_counter_argument, he]
  · intro gen c e herr
    rw [generate_arguments_for_case] at herr
    dsimp only at herr
    cases hoP : (runOpeningStep gen "Plaintiff" c.details "Defendant"
        c.plaintiff_arguments).2 with
    | raised e' => exact absurd hoP (fun h => runOpeningStep_not_raised gen _ _ _ _ e' h)
    | rejected => rw [hoP] at herr; simp at herr
    | skipped =>
      rw [hoP] at herr
      dsimp only at herr
      cases hoD : (runOpeningStep gen "Defendant" c.details "Plaintiff"
          c.defendant_arguments).2 with
      | raised e' => exact absurd hoD (fun h => runOpeningStep_not_raised gen _ _ _ _ e' h)
      | rejected => rw [hoD] at herr; simp at herr
      | skipped =>
        rw [hoD] at herr
        dsimp only at herr
        exact engineAfterOpenings_error gen c.details _ _ _ _ e herr
      | accepted s =>
        rw [hoD] at herr
        dsimp only at herr
        exact engineAfterOpenings_error gen c.details _ _ _ _ e herr
    | accepted sp =>
      rw [hoP] at herr
      dsimp only at herr
      cases hoD : (runOpeningStep gen "Defendant" c.details "Plaintiff"
          c.defendant_arguments).2 with
      | raised e' => exact absurd hoD (fun h => runOpeningStep_not_raised gen _ _ _ _ e' h)
      | rejected => rw [hoD] at herr; simp at herr
      | skipped =>
        rw [hoD] at herr
        dsimp only at herr
        exact engineAfterOpenings_error gen c.details _ _ _ _ e herr
      | accepted s =>
        rw [hoD] at herr
        dsimp only at herr
        exact engineAfterOpenings_error gen c.details _ _ _ _ e herr

/-- A generator that succeeds except on closing calls. -/
def genClosingBoom : Gen := fun call =>
  match call with
  | .closing _ _ _ => .error "boom"
  | _ => .ok "The contract was breached on the record and the evidence presented strongly supports this position."

/-- Witness for C10: a failing opening oracle yields the fallback (rejected
by the validity check), and a closing-only failure propagates out of the
engine as exactly that closing error. -/
theorem C10_lawyer_error_containment_witness :
    opening_statement (fun _ => .error "rate limit") "Plaintiff" "d" "Defendant" =
      openingFallback ∧
    is_valid_response openingFallback = false ∧
    ∃ h a u, closing_statement genClosingBoom h a u = Except.error "boom" := by
  refine ⟨?_, C10_lawyer_error_containment.1.1, ?_⟩
  · exact C10_lawyer_error_containment.2.1 (fun _ => .error "rate limit")
      "Plaintiff" "d" "Defendant" "rate limit" rfl
  · exact C10_lawyer_error_containment.2.2.2 genClosingBoom
      ⟨9, "t", "d", [], [], "details-only", "", 0⟩ "boom" (by decide)

/-! ## C4 and C6: the retry wrapper -/

/-- **C4 (code evidence)** — five consecutive short-term rate-limit failures
exhaust the loop through its `continue`, skipping the `raise e` guard, so the
wrapper raises the generic `Exception("Maximum retries exceeded")` instead of
the last rate-limit error — the line its own comment calls unreachable. -/
theorem C4_rate_limit_replaces_last_error :
    (retry_with_backoff ["k1", "k2", "k3", "k4", "k5", "k6"] (fun _ => none)
        (fun _ p _ =>
          ((Except.error (PyExc.err "rate limit: too many requests") : Except PyExc Unit), p, ()))
        (initPool ["k1", "k2", "k3", "k4", "k5", "k6"] ["m"]) ()).result =
      Except.error (PyExc.err "Maximum retries exceeded") ∧
    PyExc.err "Maximum retries exceeded" ≠ PyExc.err "rate limit: too many requests" := by
  constructor
  · rfl
  · decide

/-- **C6 counterexample** — under persistent 503/over-capacity failures the
wrapper does rotate the key: from attempt index 2 on, each transient-class
failure performs a key rotation after its backoff, so the retries do not all
use the same credential pair. -/
theorem C6_counterexample :
    (retry_with_backoff ["k1", "k2", "k3", "k4"] (fun _ => none)
        (fun _ p _ =>
          ((Except.error (PyExc.err "503 Service Unavailable") : Except PyExc Unit), p, ()))
        (initPool ["k1", "k2", "k3", "k4"] ["m"]) ()).acts =
      [.sleep 2, .sleep 4, .sleep 8, .rotKey, .sleep 16, .rotKey, .sleep 32, .rotKey] ∧
    RAction.rotKey ∈
      (retry_with_backoff ["k1", "k2", "k3", "k4"] (fun _ => none)
        (fun _ p _ =>
          ((Except.error (PyExc.err "503 Service Unavailable") : Except PyExc Unit), p, ()))
        (initPool ["k1", "k2", "k3", "k4"] ["m"]) ()).acts ∧
    (retry_with_backoff ["k1", "k2", "k3", "k4"] (fun _ => none)
        (fun _ p _ =>
          ((Except.error (PyExc.err "503 Service Unavailable") : Except PyExc Unit), p, ()))
        (initPool ["k1", "k2", "k3", "k4"] ["m"]) ()).pool.currentKey ≠
      (initPool ["k1", "k2", "k3", "k4"] ["m"]).currentKey := by
  refine ⟨rfl, by decide, by decide⟩

/-- **C6 (amended)** — for a persistent transient-capacity (503/over
capacity) failure the wrapper sleeps with exponential backoff (2, 4, 8, 16,
32 seconds, the delay doubling on each such attempt), performs no rotation
on the first two attempts, additionally rotates the key on every attempt
from index 2 on, and finally re-raises the last transient error itself. -/
theorem C6_transient_backoff (msg : String) (jsonCode : String → Option String)
    (allKeys : List String) (pool st1 st2 st3 : PoolState)
    (hcl : classifyError jsonCode msg = .transientCapacity)
    (h1 : rotate_key allKeys pool = .ok st1)
    (h2 : rotate_key allKeys st1 = .ok st2)
    (h3 : rotate_key allKeys st2 = .ok st3) :
    retry_with_backoff allKeys jsonCode
        (fun _ p _ => ((Except.error (PyExc.err msg) : Except PyExc Unit), p, ())) pool () =
      ⟨[.sleep 2, .sleep 4, .sleep 8, .rotKey, .sleep 16, .rotKey, .sleep 32, .rotKey],
        st3, (), Except.error (PyExc.err msg)⟩ := by
  unfold retry_with_backoff
  simp only [retryLoop, hcl, h1, h2, h3]
  simp

/-- Witness for the amended C6 on a 4-key pool under constant 503s. -/
theorem C6_transient_backoff_witness :
    ∃ st1 st2 st3,
      rotate_key ["k1", "k2", "k3", "k4"] (initPool ["k1", "k2", "k3", "k4"] ["m"]) =
        Except.ok st1 ∧
      rotate_key ["k1", "k2", "k3", "k4"] st1 = Except.ok st2 ∧
      rotate_key ["k1", "k2", "k3", "k4"] st2 = Except.ok st3 ∧
      retry_with_backoff ["k1", "k2", "k3", "k4"] (fun _ => none)
          (fun _ p _ =>
            ((Except.error (PyExc.err "503 over capacity") : Except PyExc Unit), p, ()))
          (initPool ["k1", "k2", "k3", "k4"] ["m"]) () =
        ⟨[.sleep 2, .sleep 4, .sleep 8, .rotKey, .sleep 16, .rotKey, .sleep 32, .rotKey],
          st3, (), Except.error (PyExc.err "503 over capacity")⟩ := by
  refine ⟨_, _, _, rfl, rfl, rfl, ?_⟩
  exact C6_transient_backoff "503 over capacity" (fun _ => none) _ _ _ _ _ (by decide)
    rfl rfl rfl

/-! ## C1: pool exhaustion is swallowed, and C7: the section scheduler -/

/-- A generator whose closing calls hit a daily-quota rate limit. -/
def genDailyQuota : Gen := fun call =>
  match call with
  | .closing _ _ _ => .error "Rate limit reached: tokens per day consumed"
  | _ => .ok "The contract was breached on the record and the evidence presented strongly supports this position."

/-- **C1 (code evidence)** — with a single model, a daily-quota failure makes
`rotate_model` raise `RuntimeError` (modelled `.error`), which propagates out
of the retry-decorated engine; but the section scheduler's per-case handler
re-raises only `SystemExit` and catches every other `Exception`, so the
pool-exhaustion error is swallowed: the section run completes normally
(`.ok ()`) after retrying the case, instead of aborting the pipeline. -/
theorem C1_pool_exhaustion_swallowed :
    rotate_model ["k"] (initPool ["k"] ["m"]) = Except.error "All groq_models exhausted" ∧
    (generate_arguments_with_retry ["k"] (fun _ => none) (fun _ _ => genDailyQuota)
        ⟨0, "t", "d", [], [], "details-only", "", 0⟩
        (initPool ["k"] ["m"]) []).result =
      Except.error (PyExc.err "All groq_models exhausted") ∧
    run_cases_for_section [⟨5, "t", "d", [], [], "details-only", "", 0⟩] 3
        (fun _ _ => .error (.err "All groq_models exhausted")) (fun _ _ => .ok ()) =
      ([.attemptCase 5 0, .attemptCase 5 1], .ok ()) := by
  refine ⟨rfl, rfl, rfl⟩

/-- Does the event create a new case (`run_single_case` call)? -/
def SchedEv.isNewCase : SchedEv → Bool
  | .attemptNew _ _ => true
  | _ => false

theorem caseLoop_events (proc : Nat → Nat → Except PyExc Bool) (cid : Nat) :
    ∀ fuel retries, ∀ e ∈ (caseLoop proc cid fuel retries).1,
      ∃ k, e = .attemptCase cid k ∧ retries ≤ k ∧ k < retries + fuel := by
  intro fuel
  induction fuel with
  | zero => intro retries e he; simp [caseLoop] at he
  | succ n ih =>
    intro retries e he
    simp only [caseLoop] at he
    split at he
    · simp at he
      exact ⟨retries, he, Nat.le_refl _, by omega⟩
    · simp only [List.mem_cons] at he
      rcases he with rfl | he
      · exact ⟨retries, rfl, Nat.le_refl _, by omega⟩
      · obtain ⟨k, hk, h1, h2⟩ := ih _ e he
        exact ⟨k, hk, by omega, by omega⟩
    · simp at he
      exact ⟨retries, he, Nat.le_refl _, by omega⟩
    · simp only [List.mem_cons] at he
      rcases he with rfl | he
      · exact ⟨retries, rfl, Nat.le_refl _, by omega⟩
      · obtain ⟨k, hk, h1, h2⟩ := ih _ e he
        exact ⟨k, hk, by omega, by omega⟩

theorem casesLoop_events (proc : Nat → Nat → Except PyExc Bool) :
    ∀ ids, ∀ e ∈ (casesLoop proc ids).1,
      ∃ cid, cid ∈ ids ∧ ∃ k, e = .attemptCase cid k ∧ k < 2 := by
  intro ids
  induction ids with
  | nil => intro e he; simp [casesLoop] at he
  | cons cid rest ih =>
    intro e he
    simp only [casesLoop] at he
    split at he
    · obtain ⟨k, hk, _, h2⟩ := caseLoop_events proc cid 2 0 e he
      exact ⟨cid, by simp, k, hk, by omega⟩
    · simp only [List.mem_append] at he
      rcases he with he | he
      · obtain ⟨k, hk, _, h2⟩ := caseLoop_events proc cid 2 0 e he
        exact ⟨cid, by simp, k, hk, by omega⟩
      · obtain ⟨cid', hc, k, hk, h2⟩ := ih e he
        exact ⟨cid', by simp [hc], k, hk, h2⟩

theorem newCaseAttempt_events (procNew : Nat → Nat → Except PyExc Unit) (slot : Nat) :
    ∀ fuel retries, ∀ e ∈ (newCaseAttempt procNew slot fuel retries).1,
      ∃ k, e = .attemptNew slot k ∧ retries ≤ k ∧ k < retries + fuel := by
  intro fuel
  induction fuel with
  | zero => intro retries e he; simp [newCaseAttempt] at he
  | succ n ih =>
    intro retries e he
    simp only [newCaseAttempt] at he
    split at he
    · simp at he
      exact ⟨retries, he, Nat.le_refl _, by omega⟩
    · simp at he
      exact ⟨retries, he, Nat.le_refl _, by omega⟩
    · simp only [List.mem_cons] at he
      rcases he with rfl | he
      · exact ⟨retries, rfl, Nat.le_refl _, by omega⟩
      · obtain ⟨k, hk, h1, h2⟩ := ih _ e he
        exact ⟨k, hk, by omega, by omega⟩

theorem newCasesLoop_events (procNew : Nat → Nat → Except PyExc Unit) :
    ∀ slots, ∀ e ∈ (newCasesLoop procNew slots).1,
      ∃ i, i ∈ slots ∧ ∃ k, e = .attemptNew i k ∧ k < 2 := by
  intro slots
  induction slots with
  | nil => intro e he; simp [newCasesLoop] at he
  | cons slot rest ih =>
    intro e he
    simp only [newCasesLoop] at he
    split at he
    · obtain ⟨k, hk, _, h2⟩ := newCaseAttempt_events procNew slot 2 0 e he
      exact ⟨slot, by simp, k, hk, by omega⟩
    · simp only [List.mem_append] at he
      rcases he with he | he
      · obtain ⟨k, hk, _, h2⟩ := newCaseAttempt_events procNew slot 2 0 e he
        exact ⟨slot, by simp, k, hk, by omega⟩
      · obtain ⟨i, hi, k, hk, h2⟩ := ih e he
        exact ⟨i, by simp [hi], k, hk, h2⟩
    · obtain ⟨k, hk, _, h2⟩ := newCaseAttempt_events procNew slot 2 0 e he
      exact ⟨slot, by simp, k, hk, by omega⟩

theorem mem_drop_range3 (ra i : Nat) (h : i ∈ (List.range 3).drop ra) :
    ra ≤ i ∧ i < 3 := by
  match ra with
  | 0 =>
    have : (List.range 3).drop 0 = [0, 1, 2] := by decide
    rw [this] at h
    simp at h
    omega
  | 1 =>
    have : (List.range 3).drop 1 = [1, 2] := by decide
    rw [this] at h
    simp at h
    omega
  | 2 =>
    have : (List.range 3).drop 2 = [2] := by decide
    rw [this] at h
    simp at h
    omega
  | n + 3 =>
    rw [List.drop_eq_nil_of_le (by simp)] at h
    simp at h

theorem casesLoop_no_new (proc : Nat → Nat → Except PyExc Bool) (ids : List Nat) :
    (casesLoop proc ids).1.countP SchedEv.isNewCase = 0 := by
  refine List.countP_eq_zero.mpr ?_
  intro e he
  obtain ⟨cid, _, k, hk, _⟩ := casesLoop_events proc ids e he
  subst hk
  simp [SchedEv.isNewCase]

/-- **C7** — for every section run: the event trace splits into details-only
case attempts, then in-progress case attempts, then new-case creations; every
per-case attempt index is below the immediate-retry bound 2; new-case slots
are exactly `range(resolved_count, 3)`; and in the spec scenario (recomputed
resolved count 2, creation succeeding) exactly one new case is created. -/
theorem C7_section_scheduler (cases : List CaseDoc) (resolvedAfter : Nat)
    (proc : Nat → Nat → Except PyExc Bool) (procNew : Nat → Nat → Except PyExc Unit) :
    (∃ t1 t2 t3,
      (run_cases_for_section cases resolvedAfter proc procNew).1 = t1 ++ t2 ++ t3 ∧
      (∀ e ∈ t1, ∃ cid, cid ∈ (cases.filter
          (fun c => c.status = "details-only")).map (fun c => c.id) ∧
        ∃ k, e = SchedEv.attemptCase cid k ∧ k < 2) ∧
      (∀ e ∈ t2, ∃ cid, cid ∈ (cases.filter
          (fun c => c.status = "in-progress")).map (fun c => c.id) ∧
        ∃ k, e = SchedEv.attemptCase cid k ∧ k < 2) ∧
      (∀ e ∈ t3, ∃ i, resolvedAfter ≤ i ∧ i < 3 ∧
        ∃ k, e = SchedEv.attemptNew i k ∧ k < 2)) ∧
    (resolvedAfter = 2 → procNew 2 0 = .ok () →
      (run_cases_for_section cases resolvedAfter proc procNew).2 = .ok () →
      (run_cases_for_section cases resolvedAfter proc procNew).1.countP
        SchedEv.isNewCase = 1) := by
  constructor
  · unfold run_cases_for_section
    dsimp only
    cases h1 : (casesLoop proc ((cases.filter
        (fun c => c.status = "details-only")).map (fun c => c.id))).2 with
    | error e =>
      simp only [h1]
      refine ⟨_, [], [], by rw [List.append_nil, List.append_nil], ?_, by simp, by simp⟩
      intro ev hev
      obtain ⟨cid, hc, k, hk, h2⟩ := casesLoop_events proc _ ev hev
      exact ⟨cid, hc, k, hk, h2⟩
    | ok u =>
      simp only [h1]
      cases h2 : (casesLoop proc ((cases.filter
          (fun c => c.status = "in-progress")).map (fun c => c.id))).2 with
      | error e =>
        simp only [h2]
        refine ⟨_, _, [], by rw [List.append_nil], ?_, ?_, by simp⟩
        · intro ev hev
          obtain ⟨cid, hc, k, hk, h2⟩ := casesLoop_events proc _ ev hev
          exact ⟨cid, hc, k, hk, h2⟩
        · intro ev hev
          obtain ⟨cid, hc, k, hk, h2⟩ := casesLoop_events proc _ ev hev
          exact ⟨cid, hc, k, hk, h2⟩
      | ok u2 =>
        simp only [h2]
        by_cases hra : resolvedAfter < 3
        · rw [if_pos hra]
          refine ⟨_, _, _, rfl, ?_, ?_, ?_⟩
          · intro ev hev
            obtain ⟨cid, hc, k, hk, h2⟩ := casesLoop_events proc _ ev hev
            exact ⟨cid, hc, k, hk, h2⟩
          · intro ev hev
            obtain ⟨cid, hc, k, hk, h2⟩ := casesLoop_events proc _ ev hev
            exact ⟨cid, hc, k, hk, h2⟩
          · intro ev hev
            obtain ⟨i, hi, k, hk, h2⟩ := newCasesLoop_events procNew _ ev hev
            obtain ⟨hi1, hi2⟩ := mem_drop_range3 _ _ hi
            exact ⟨i, hi1, hi2, k, hk, h2⟩
        · rw [if_neg hra]
          refine ⟨_, _, [], by rw [List.append_nil], ?_, ?_, by simp⟩
          · intro ev hev
            obtain ⟨cid, hc, k, hk, h2⟩ := casesLoop_events proc _ ev hev
            exact ⟨cid, hc, k, hk, h2⟩
          · intro ev hev
            obtain ⟨cid, hc, k, hk, h2⟩ := casesLoop_events proc _ ev hev
            exact ⟨cid, hc, k, hk, h2⟩
  · intro hra hnew hok
    subst hra
    unfold run_cases_for_section at hok ⊢
    dsimp only at hok ⊢
    split at hok
    next e heq =>
      have hok2 : (Except.error e : Except PyExc Unit) = Except.ok () := hok
      cases hok2
    next a heq =>
      split at hok
      next e heq2 =>
        have hok2 : (Except.error e : Except PyExc Unit) = Except.ok () := hok
        cases hok2
      next a2 heq2 =>
        have hslots : (List.range 3).drop 2 = [2] := by decide
        rw [if_pos (by omega)]
        have hattempt : newCaseAttempt procNew 2 2 0 = ([.attemptNew 2 0], .ok true) := by
          simp [newCaseAttempt, hnew]
        have hloop : newCasesLoop procNew [2] = ([.attemptNew 2 0], .ok ()) := by
          simp [newCasesLoop, hattempt]
        rw [hslots, hloop]
        simp [List.countP_append, casesLoop_no_new, SchedEv.isNewCase]

/-- Witness for C7 at a concrete section with one details-only case, one
in-progress case, resolved count 2, and an always-succeeding creator. -/
theorem C7_section_scheduler_witness :
    ((run_cases_for_section
        [⟨1, "a", "d", [], [], "details-only", "", 0⟩,
         ⟨2, "b", "d", ["x"], [], "in-progress", "", 0⟩] 2
        (fun _ _ => .ok true) (fun _ _ => .ok ())).1.countP SchedEv.isNewCase = 1) ∧
    (∃ t1 t2 t3, (run_cases_for_section
        [⟨1, "a", "d", [], [], "details-only", "", 0⟩,
         ⟨2, "b", "d", ["x"], [], "in-progress", "", 0⟩] 2
        (fun _ _ => .ok true) (fun _ _ => .ok ())).1 = t1 ++ t2 ++ t3) := by
  obtain ⟨⟨t1, t2, t3, hsplit, -⟩, hcount⟩ := C7_section_scheduler
    [⟨1, "a", "d", [], [], "details-only", "", 0⟩,
     ⟨2, "b", "d", ["x"], [], "in-progress", "", 0⟩] 2
    (fun _ _ => .ok true) (fun _ _ => .ok ())
  exact ⟨hcount rfl rfl rfl, t1, t2, t3, hsplit⟩

/-! ## C9: new-case creation is not atomic on failure -/

theorem applySave_length (cid : Nat) (db : List CaseDoc) (sv : SaveEv) :
    (applySave cid db sv).length = db.length := by
  simp [applySave]

theorem applySaves_length (cid : Nat) :
    ∀ svs db, (applySaves cid db svs).length = db.length := by
  intro svs
  induction svs with
  | nil => intro db; rfl
  | cons sv rest ih =>
    intro db
    show (applySaves cid (applySave cid db sv) rest).length = db.length
    rw [ih, applySave_length]

theorem applySave_ids (cid : Nat) (db : List CaseDoc) (sv : SaveEv) :
    (applySave cid db sv).map (fun c => c.id) = db.map (fun c => c.id) := by
  simp only [applySave, List.map_map]
  congr 1
  funext c
  by_cases h : c.id = cid <;> simp [h]

theorem applySaves_ids (cid : Nat) :
    ∀ svs db, (applySaves cid db svs).map (fun c => c.id) = db.map (fun c => c.id) := by
  intro svs
  induction svs with
  | nil => intro db; rfl
  | cons sv rest ih =>
    intro db
    show (applySaves cid (applySave cid db sv) rest).map _ = _
    rw [ih, applySave_ids]

theorem retryLoop_state_length {α : Type} (allKeys : List String)
    (jsonCode : String → Option String)
    (body : Nat → PoolState → List CaseDoc → Except PyExc α × PoolState × List CaseDoc)
    (hbody : ∀ a p s, (body a p s).2.2.length = s.length) :
    ∀ fuel attempt delay pool s acts,
      (retryLoop allKeys jsonCode body fuel attempt delay pool s acts).state.length =
        s.length := by
  intro fuel
  induction fuel with
  | zero => intro attempt delay pool s acts; rfl
  | succ n ih =>
    intro attempt delay pool s acts
    simp only [retryLoop]
    split
    next a pool' s' heq =>
      have hb := hbody attempt pool s
      rw [heq] at hb
      exact hb
    next pool' s' heq =>
      have hb := hbody attempt pool s
      rw [heq] at hb
      exact hb
    next msg pool' s' heq =>
      have hb := hbody attempt pool s
      rw [heq] at hb
      repeat' split
      all_goals first
      | exact hb
      | exact (ih _ _ _ _ _).trans hb

theorem retryLoop_state_ids {α : Type} (allKeys : List String)
    (jsonCode : String → Option String)
    (body : Nat → PoolState → List CaseDoc → Except PyExc α × PoolState × List CaseDoc)
    (hbody : ∀ a p s, (body a p s).2.2.map (fun c => c.id) = s.map (fun c => c.id)) :
    ∀ fuel attempt delay pool s acts,
      (retryLoop allKeys jsonCode body fuel attempt delay pool s acts).state.map
          (fun c => c.id) = s.map (fun c => c.id) := by
  intro fuel
  induction fuel with
  | zero => intro attempt delay pool s acts; rfl
  | succ n ih =>
    intro attempt delay pool s acts
    simp only [retryLoop]
    split
    next a pool' s' heq =>
      have hb := hbody attempt pool s
      rw [heq] at hb
      exact hb
    next pool' s' heq =>
      have hb := hbody attempt pool s
      rw [heq] at hb
      exact hb
    next msg pool' s' heq =>
      have hb := hbody attempt pool s
      rw [heq] at hb
      repeat' split
      all_goals first
      | exact hb
      | exact (ih _ _ _ _ _).trans hb

theorem genArgsRetry_db_length (allKeys : List String) (jsonCode : String → Option String)
    (gen : Nat → PoolState → Gen) (c : CaseDoc) (pool : PoolState) (db : List CaseDoc) :
    (generate_arguments_with_retry allKeys jsonCode gen c pool db).state.length =
      db.length := by
  unfold generate_arguments_with_retry retry_with_backoff
  exact retryLoop_state_length allKeys jsonCode _
    (fun a p s => by dsimp only; rw [applySaves_length]) 5 0 2 pool db []

theorem genArgsRetry_db_ids (allKeys : List String) (jsonCode : String → Option String)
    (gen : Nat → PoolState → Gen) (c : CaseDoc) (pool : PoolState) (db : List CaseDoc) :
    (generate_arguments_with_retry allKeys jsonCode gen c pool db).state.map
        (fun c => c.id) = db.map (fun c => c.id) := by
  unfold generate_arguments_with_retry retry_with_backoff
  exact retryLoop_state_ids allKeys jsonCode _
    (fun a p s => by dsimp only; rw [applySaves_ids]) 5 0 2 pool db []

/-- **C9** — `run_single_case` persists the fresh `details-only` document
before argument generation and never deletes it: every body attempt whose
case-content generation succeeds grows the store by exactly one document
whose id survives any outcome; and under a generator whose arguments always
come back invalid, the full retry-decorated run raises the `ValueError` and
leaves 5 persisted `details-only` documents — one per attempt. -/
theorem C9_insert_not_atomic :
    (∀ (jsonCode : String → Option String) (genCase : Nat → Option CaseContent)
        (gen : Nat → PoolState → Gen) (sec : Nat) (allKeys : List String)
        (attempt : Nat) (pool : PoolState) (db : List CaseDoc) (cc : CaseContent),
      genCase attempt = some cc →
      (run_single_case_body jsonCode genCase gen sec allKeys attempt pool db).2.2.length =
          db.length + 1 ∧
      ∃ x ∈ (run_single_case_body jsonCode genCase gen sec allKeys attempt pool db).2.2,
        x.id = db.length) ∧
    ((run_single_case ["k1", "k2", "k3", "k4", "k5"] (fun _ => none)
        (fun _ => some ⟨"c", "t", "d"⟩) (fun _ _ => fun _ => .error "boom") 7
        (initPool ["k1", "k2", "k3", "k4", "k5"] ["m"]) []).result =
      Except.error (PyExc.err "Failed to generate arguments for case") ∧
     (run_single_case ["k1", "k2", "k3", "k4", "k5"] (fun _ => none)
        (fun _ => some ⟨"c", "t", "d"⟩) (fun _ _ => fun _ => .error "boom") 7
        (initPool ["k1", "k2", "k3", "k4", "k5"] ["m"]) []).state.length = 5 ∧
     ∀ x ∈ (run_single_case ["k1", "k2", "k3", "k4", "k5"] (fun _ => none)
        (fun _ => some ⟨"c", "t", "d"⟩) (fun _ _ => fun _ => .error "boom") 7
        (initPool ["k1", "k2", "k3", "k4", "k5"] ["m"]) []).state,
       x.status = "details-only") := by
  constructor
  · intro jsonCode genCase gen sec allKeys attempt pool db cc hcc
    unfold run_single_case_body
    rw [hcc]
    dsimp only
    constructor
    · split <;>
        (dsimp only; rw [genArgsRetry_db_length]; simp)
    · have hmem : db.length ∈ (generate_arguments_with_retry allKeys jsonCode
          (fun k => gen (attempt + k))
          ⟨db.length, cc.title, cc.details, [], [], "details-only", cc.cnr, sec⟩ pool
          (db ++ [⟨db.length, cc.title, cc.details, [], [], "details-only", cc.cnr, sec⟩])).state.map
          (fun c => c.id) := by
        rw [genArgsRetry_db_ids]
        simp
      obtain ⟨x, hx, hid⟩ := List.mem_map.mp hmem
      split <;> exact ⟨x, hx, hid⟩
  · refine ⟨rfl, rfl, ?_⟩
    decide

/-- Witness for C9 at one concrete failing attempt on an empty store. -/
theorem C9_insert_not_atomic_witness :
    (run_single_case_body (fun _ => none) (fun _ => some ⟨"c", "t", "d"⟩)
        (fun _ _ => fun _ => .error "boom") 7 ["k1"] 0
        (initPool ["k1"] ["m"]) []).2.2.length = 1 ∧
    ∃ x ∈ (run_single_case_body (fun _ => none) (fun _ => some ⟨"c", "t", "d"⟩)
        (fun _ _ => fun _ => .error "boom") 7 ["k1"] 0
        (initPool ["k1"] ["m"]) []).2.2, x.id = 0 := by
  obtain ⟨h1, h2⟩ := C9_insert_not_atomic.1 (fun _ => none) (fun _ => some ⟨"c", "t", "d"⟩)
    (fun _ _ => fun _ => .error "boom") 7 ["k1"] 0 (initPool ["k1"] ["m"]) []
    ⟨"c", "t", "d"⟩ rfl
  exact ⟨by simpa using h1, by simpa using h2⟩

end SynthVerdict
